import Mathlib

/-!
Verification model of the aemo-bess analytics core: the banner-format record
extractor (`src/aemo_banner.py`), the per-unit daily summarizer
(`src/agent_summary.py`) and the next-day forecaster (`src/agent_forecast.py`).

Power values are modelled as exact rationals.  Where missing values (NaN in the
pandas frames) are semantically relevant, values are modelled as `Option ℚ`
with `none` playing the role of NaN and arithmetic propagating `none`, mirroring
IEEE NaN propagation; comparisons against NaN are false, mirrored by
`Option`-valued comparators that are false on `none`.  Timestamps are modelled
as whole minutes; one day is 1440 minutes and the 5-minute cadence gives 288
slots per day.  The standard deviation used by the ramp-alert threshold and the
z-score flagger is irrational in general, so the comparisons of the source
(`x >= sigma * sqrt v`, `abs ((d - m) / sd) > thr` with `sd = sqrt v`) are
encoded by the equivalent squared comparisons over ℚ, all quantities involved
being nonnegative.
-/

namespace AemoBess

/-! ## Forecaster (`src/agent_forecast.py`) -/

/-- Model of `ForecastConfig` with the source defaults. -/
structure ForecastConfig where
  alpha : ℚ := 3 / 10
  ramp_alert_sigma : ℚ := 2
deriving DecidableEq

/-- One canonical reading `(timestamp, duid, power_MW)`, the row shape shared by
the whole pipeline.  The timestamp is in minutes.  The power value here is a
present (non-NaN) value; the NaN-propagating behavior of the forecaster on a
series with missing values is modelled separately by `forecastSeriesOpt` and
`unitCurveOpt`. -/
structure Reading where
  ts : ℕ
  duid : String
  power_MW : ℚ
deriving DecidableEq

instance : Inhabited Reading := ⟨⟨0, "", 0⟩⟩

/-- One forecast row `(timestamp, duid, power_hat_MW)`. -/
structure ForecastPoint where
  ts : ℕ
  duid : String
  power_hat_MW : ℚ
deriving DecidableEq

instance : Inhabited ForecastPoint := ⟨⟨0, "", 0⟩⟩

/-- One ramp-alert row `(timestamp, duid, predicted_ramp_MW)`. -/
structure RampAlert where
  ts : ℕ
  duid : String
  predicted_ramp_MW : ℚ
deriving DecidableEq

instance : Inhabited RampAlert := ⟨⟨0, "", 0⟩⟩

/-- Loop body of `forecast_series`: walking the tail of the input, `prev` is
`y[i-1]` and `hat` is `yhat[i-1]`; each step appends
`alpha * y[i-1] + (1 - alpha) * yhat[i-1]`. -/
def fsGo (alpha prev hat : ℚ) : List ℚ → List ℚ
  | [] => []
  | y :: ys =>
    let h := alpha * prev + (1 - alpha) * hat
    h :: fsGo alpha y h ys

/-- Model of `forecast_series`: simple exponential smoothing with
`yhat[0] = y[0]` and `yhat[i] = alpha * y[i-1] + (1 - alpha) * yhat[i-1]`. -/
def forecastSeries (alpha : ℚ) : List ℚ → List ℚ
  | [] => []
  | y0 :: ys => y0 :: fsGo alpha y0 y0 ys

/-- NaN-propagating scalar multiplication (`c * NaN = NaN`). -/
def smul (c : ℚ) : Option ℚ → Option ℚ
  | some a => some (c * a)
  | none => none

/-- NaN-propagating addition. -/
def oadd : Option ℚ → Option ℚ → Option ℚ
  | some a, some b => some (a + b)
  | _, _ => none

/-- NaN-propagating subtraction `b - a`. -/
def osub : Option ℚ → Option ℚ → Option ℚ
  | some b, some a => some (b - a)
  | _, _ => none

/-- Loop body of `forecast_series` on series that may contain missing values
(`none` = NaN), exactly as the float recurrence of the source behaves. -/
def fsGoOpt (alpha : ℚ) (prev hat : Option ℚ) : List (Option ℚ) → List (Option ℚ)
  | [] => []
  | y :: ys =>
    let h := oadd (smul alpha prev) (smul (1 - alpha) hat)
    h :: fsGoOpt alpha y h ys

/-- Model of `forecast_series` on a series that may contain missing values.
The source applies the recurrence directly to the raw values, so a NaN input
propagates through every later smoothed value. -/
def forecastSeriesOpt (alpha : ℚ) : List (Option ℚ) → List (Option ℚ)
  | [] => []
  | y0 :: ys => y0 :: fsGoOpt alpha y0 y0 ys

/-- Helper for `ffillSpec`, carrying the last seen value. -/
def ffillGo (last : Option ℚ) : List (Option ℚ) → List (Option ℚ)
  | [] => []
  | none :: xs => last :: ffillGo last xs
  | some v :: xs => some v :: ffillGo (some v) xs

/-- Modelled from the spec: the forward-fill preprocessing step the spec claims
("Forward-fill missing values in the input series").  Each missing value is
replaced by the nearest earlier present value; leading missing values stay
missing.  No such step exists in `src/agent_forecast.py`. -/
def ffillSpec (s : List (Option ℚ)) : List (Option ℚ) := ffillGo none s

/-- Model of the forward roll of `forecast_next_day`: starting from the held
state `ht`, each of `n` steps performs `ht := alpha * mean + (1 - alpha) * ht`
and emits the new state. -/
def rollForward (alpha mean_level : ℚ) : ℚ → ℕ → List ℚ
  | _, 0 => []
  | ht, n + 1 =>
    let h := alpha * mean_level + (1 - alpha) * ht
    h :: rollForward alpha mean_level h n

/-- Model of the forward roll of `forecast_next_day` on values that may be
missing (`none` = NaN), with the float arithmetic of the source propagating
NaN: each of `n` steps performs `ht := alpha * mean + (1 - alpha) * ht` and
emits the new state. -/
def rollForwardOpt (alpha : ℚ) (mean_level : Option ℚ) : Option ℚ → ℕ → List (Option ℚ)
  | _, 0 => []
  | ht, n + 1 =>
    let h := oadd (smul alpha mean_level) (smul (1 - alpha) ht)
    h :: rollForwardOpt alpha mean_level h n

/-- NaN-propagating absolute value. -/
def oabs : Option ℚ → Option ℚ
  | some a => some |a|
  | none => none

/-- Mean of a list of rationals (`Series.mean` on NaN-free data). -/
def meanOf (p : List ℚ) : ℚ := p.sum / p.length

/-- Model of `p.mean()` on a series that may contain missing values: pandas
skips NaN, so this is the mean of the present values, NaN (`none`) when no
value is present. -/
def meanOpt (p : List (Option ℚ)) : Option ℚ :=
  let v := p.filterMap id
  if v = [] then none else some (v.sum / v.length)

/-- The per-unit forecast curve of `forecast_next_day` on a power series that
may contain missing values: the forward roll with NaN-propagating arithmetic,
seeded at the last smoothed value of the raw series, with the skip-NaN day
mean as attractor. -/
def unitCurveOpt (alpha : ℚ) (p : List (Option ℚ)) (n : ℕ) : List (Option ℚ) :=
  rollForwardOpt alpha (meanOpt p) ((forecastSeriesOpt alpha p).getLastD none) n

/-- Consecutive first differences `p[i] - p[i-1]` (`Series.diff` restricted to
its defined entries: the leading NaN is dropped by the `std` that consumes
this list). -/
def diffs (p : List ℚ) : List ℚ := List.zipWith (fun a b => b - a) p p.tail

/-- Population variance (`std(ddof=0)` squared). -/
def popVar (l : List ℚ) : ℚ := (l.map (fun x => (x - meanOf l) ^ 2)).sum / l.length

/-- Model of `np.abs(np.diff(ph, prepend=ph[0]))`: absolute first differences of
the forecast curve, the first delta taken against itself (hence 0). -/
def rampDeltas : List ℚ → List ℚ
  | [] => []
  | h :: t => List.zipWith (fun a b => |b - a|) (h :: h :: t) (h :: t)

/-- Model of `timestamp.dt.floor("D")` on a timestamp in minutes. -/
def floorDay (t : ℕ) : ℕ := 1440 * (t / 1440)

instance : IsTotal Reading (fun a b => a.ts ≤ b.ts) := ⟨fun a b => Nat.le_total a.ts b.ts⟩

instance : IsTrans Reading (fun a b => a.ts ≤ b.ts) := ⟨fun _ _ _ => Nat.le_trans⟩

/-- Model of `df.sort_values("timestamp")`. -/
def sortByTs (df : List Reading) : List Reading :=
  List.insertionSort (fun a b => a.ts ≤ b.ts) df

/-- Lexicographic order on character lists by code point, the order pandas uses
on string group keys. -/
def chLe : List Char → List Char → Bool
  | [], _ => true
  | _ :: _, [] => false
  | a :: as, b :: bs => if a = b then chLe as bs else decide (a.val ≤ b.val)

/-- Lexicographic order on unit identifiers. -/
def duidLe (a b : String) : Bool := chLe a.data b.data

/-- Model of the group keys of `df.groupby("duid")`: the distinct unit
identifiers, in ascending order. -/
def unitsOf (df : List Reading) : List String :=
  List.insertionSort (fun a b => duidLe a b) (df.map (·.duid)).dedup

/-- Model of one group of `df.sort_values("timestamp").groupby("duid")`: the
rows of the unit, in time order. -/
def subFor (df : List Reading) (u : String) : List Reading :=
  (sortByTs df).filter (fun r => r.duid == u)

/-- Per-unit body of the loop of `forecast_next_day`: fit the smoothing on the
day of data, roll the last smoothed state forward across `idxNext`, and derive
ramp alerts from the threshold `ramp_alert_sigma * std(diff)`.  The comparison
`dph >= thr` of the source is encoded squared (`dph ^ 2 >= sigma ^ 2 * var`),
which is equivalent since both sides are nonnegative where the branch runs. -/
def forecastUnit (cfg : ForecastConfig) (idxNext : List ℕ) (u : String)
    (sub : List Reading) : List ForecastPoint × List RampAlert :=
  let p := sub.map (·.power_MW)
  let yhatIn := forecastSeries cfg.alpha p
  let lastHat := yhatIn.getLastD 0
  let mean_level := meanOf p
  let ph := rollForward cfg.alpha mean_level lastHat idxNext.length
  let fpoints := (idxNext.zip ph).map (fun tv => ⟨tv.1, u, tv.2⟩ : _ → ForecastPoint)
  let d := diffs p
  let dph := rampDeltas ph
  let alerts : List RampAlert :=
    if d ≠ [] ∧ 0 < popVar d ∧ 0 < cfg.ramp_alert_sigma then
      ((List.range idxNext.length).filter
          (fun i => decide (cfg.ramp_alert_sigma ^ 2 * popVar d ≤ dph.getD i 0 ^ 2))).map
        (fun i => ⟨idxNext.getD i 0, u, dph.getD i 0⟩)
    else []
  (fpoints, alerts)

/-- Model of `pd.date_range(next_day, next_day + 287 * 5min, freq="5min")` where
`next_day = df["timestamp"].dt.floor("D").iloc[0] + 1 day`: the 288 slot
timestamps of the day after the floored day of the first row. -/
def idxNextOf (t0 : ℕ) : List ℕ :=
  (List.range 288).map (fun k => (floorDay t0 + 1440) + 5 * k)

/-- Model of `forecast_next_day`.  On an empty frame the source raises
`IndexError` at `df["timestamp"].dt.strftime("%Y-%m-%d").iloc[0]`, modelled as
`none`.  Otherwise the next-day 5-minute grid starts at the floored day of the
first row plus one day, and the per-unit outputs are concatenated in unit
order. -/
def forecastNextDay (cfg : ForecastConfig) (df : List Reading) :
    Option (List ForecastPoint × List RampAlert) :=
  match df with
  | [] => none
  | r0 :: _ =>
    let idxNext := idxNextOf r0.ts
    let units := unitsOf df
    some ((units.map (fun u => (forecastUnit cfg idxNext u (subFor df u)).1)).flatten,
          (units.map (fun u => (forecastUnit cfg idxNext u (subFor df u)).2)).flatten)

/-! ## Daily summarizer (`src/agent_summary.py`)

Power values are `Option ℚ` here: `none` models a NaN reading, which the
summarizer statistics treat exactly as the float code does (`fillna`,
`nanmax`, skip-NaN percentile, rolling windows counting valid samples). -/

/-- One reading whose power may be missing (NaN). -/
structure SReading where
  ts : ℕ
  duid : String
  power_MW : Option ℚ
deriving DecidableEq

instance : Inhabited SReading := ⟨⟨0, "", none⟩⟩

instance : IsTotal SReading (fun a b => a.ts ≤ b.ts) := ⟨fun a b => Nat.le_total a.ts b.ts⟩

instance : IsTrans SReading (fun a b => a.ts ≤ b.ts) := ⟨fun _ _ _ => Nat.le_trans⟩

/-- Model of `s.fillna(0)` on one value. -/
def zeroFill (x : Option ℚ) : ℚ := x.getD 0

/-- Model of `(s.fillna(0) == 0)` in `_find_zero_runs`: note a missing value
counts as zero. -/
def zvec (s : List (Option ℚ)) : List Bool := s.map (fun x => zeroFill x == 0)

/-- Model of the edge mask `z.diff().fillna(z.iloc[0]).ne(0)`: position 0 is an
edge iff `z[0]` is set, any later position iff `z` changes there. -/
def isEdge (z : List Bool) (j : ℕ) : Bool :=
  if j = 0 then z.getD 0 false else z.getD j false != z.getD (j - 1) false

/-- Model of `np.flatnonzero(edges.values)`. -/
def edgeIdxs (z : List Bool) : List ℕ := (List.range z.length).filter (isEdge z)

/-- Model of `np.r_[idx, len(z)]`. -/
def boundaries (z : List Bool) : List ℕ := edgeIdxs z ++ [z.length]

/-- Model of the run loop of `_find_zero_runs`: consecutive boundary pairs
`(a, b)` with `z[a]` set and `b - a >= min_points` become inclusive index
ranges `(a, b - 1)`. -/
def zeroRunPairs (z : List Bool) (min_points : ℕ) : List (ℕ × ℕ) :=
  (((boundaries z).zip (boundaries z).tail).filter
      (fun ab => z.getD ab.1 false && decide (min_points ≤ ab.2 - ab.1))).map
    (fun ab => (ab.1, ab.2 - 1))

/-- Model of `_find_zero_runs`. -/
def findZeroRuns (s : List (Option ℚ)) (min_points : ℕ) : List (ℕ × ℕ) :=
  zeroRunPairs (zvec s) min_points

/-- Model of `p.diff().abs()` restricted to its defined entries: the absolute
difference of each consecutive pair of readings, `none` when either side is
missing.  The list has one entry per consecutive pair; the leading NaN that
pandas prepends is handled by the consumers (`nanmax`, `dropna`). -/
def oramps (p : List (Option ℚ)) : List (Option ℚ) :=
  List.zipWith (fun a b =>
    match a, b with
    | some x, some y => some |y - x|
    | _, _ => none) p p.tail

/-- Model of `np.nanmax`: maximum of the present values, `none` (NaN) when no
value is present. -/
def nanmaxQ (l : List (Option ℚ)) : Option ℚ :=
  match l.filterMap id with
  | [] => none
  | x :: xs => some (xs.foldl max x)

/-- Floor of a rational as an integer (`num.fdiv den`; the denominator is
positive). -/
def qfloor (q : ℚ) : ℤ := q.num.fdiv q.den

/-- The input values sorted ascending, as `np.nanpercentile` sorts them. -/
def sortedAsc (l : List ℚ) : List ℚ := List.insertionSort (fun x y => x ≤ y) l

/-- The virtual rank `95/100 * (n - 1)` of the linear-interpolation
percentile. -/
def p95pos (l : List ℚ) : ℚ := 19 / 20 * (((sortedAsc l).length : ℚ) - 1)

/-- The lower bracketing index of the virtual rank. -/
def p95lo (l : List ℚ) : ℕ := (qfloor (p95pos l)).toNat

/-- Model of `np.nanpercentile(a, 95)` (linear-interpolation method): with the
values sorted ascending, the virtual rank is `19/20 * (n - 1)`; the result
interpolates between the two bracketing order statistics. -/
def percentile95 (l : List ℚ) : ℚ :=
  (sortedAsc l).getD (p95lo l) 0
    + (p95pos l - (p95lo l : ℚ))
      * ((sortedAsc l).getD (p95lo l + 1) ((sortedAsc l).getD (p95lo l) 0)
        - (sortedAsc l).getD (p95lo l) 0)

/-- Model of `p.diff()` with its leading NaN, on possibly-missing values. -/
def odiff (p : List (Option ℚ)) : List (Option ℚ) :=
  none :: List.zipWith (fun a b => osub b a) p p.tail

/-- Trailing rolling window of width `win` ending at index `i`. -/
def winAt (ds : List (Option ℚ)) (i win : ℕ) : List (Option ℚ) :=
  (ds.take (i + 1)).drop (i + 1 - win)

/-- Model of `ds.rolling(win, min_periods=minp).mean()` at index `i`: the mean
of the valid samples of the window when there are at least `minp` of them. -/
def rollMean (ds : List (Option ℚ)) (i win minp : ℕ) : Option ℚ :=
  let v := (winAt ds i win).filterMap id
  if minp ≤ v.length then some (meanOf v) else none

/-- Model of the square of `ds.rolling(win, min_periods=minp).std(ddof=0)` at
index `i`. -/
def rollVar (ds : List (Option ℚ)) (i win minp : ℕ) : Option ℚ :=
  let v := (winAt ds i win).filterMap id
  if minp ≤ v.length then some (popVar v) else none

/-- Model of `_zscore_anomalies` (window 12, `min_periods = max(3, 12 // 2)`,
threshold 3.0).  The source replaces a zero rolling std by NaN before dividing,
so a flag requires a defined positive std; the strict comparison
`abs ((d - mu) / sd) > thr` is encoded squared over ℚ. -/
def zscoreFlags (p : List (Option ℚ)) (win : ℕ := 12) (z_thr : ℚ := 3) : List Bool :=
  let ds := odiff p
  let minp := max 3 (win / 2)
  (List.range ds.length).map (fun i =>
    match ds.getD i none, rollMean ds i win minp, rollVar ds i win minp with
    | some d, some m, some v => decide (0 < v) && decide (z_thr ^ 2 * v < (d - m) ^ 2)
    | _, _, _ => false)

/-- The claim-relevant fields of `DuidSummary`.  `ramp_max` is `Option ℚ`
because `np.nanmax` of an all-NaN ramp series is NaN.  The remaining source
fields (descriptive stats, energy, trend slope, bursts, diurnal profile,
notes) are not touched by any claim and are omitted. -/
structure DuidSummary where
  duid : String
  n_rows : ℕ
  zero_frac : ℚ
  neg_frac : ℚ
  ramp_max : Option ℚ
  ramp_95p : ℚ
  outages : List (ℕ × ℕ × ℕ)
  anomalies : ℕ
deriving DecidableEq

instance : Inhabited DuidSummary := ⟨⟨"", 0, 0, 0, none, 0, [], 0⟩⟩

/-- Comparison `a <= b` under float-NaN semantics: false when either side is
NaN. -/
def fleOpt : Option ℚ → Option ℚ → Bool
  | some x, some y => decide (x ≤ y)
  | _, _ => false

/-- Comparison `a < b` under float-NaN semantics: false when either side is
NaN (`p < 0` on a NaN reading is false). -/
def fltOpt : Option ℚ → Option ℚ → Bool
  | some x, some y => decide (x < y)
  | _, _ => false

/-- Model of `df[df["duid"] == duid].sort_values("timestamp")`. -/
def subSorted (df : List SReading) (duid : String) : List SReading :=
  List.insertionSort (fun a b => a.ts ≤ b.ts) (df.filter (fun r => r.duid == duid))

/-- The summary record built by the body of `summarize_duid` (claim-relevant
fields) from the sorted unit selection. -/
def mkSummary (df : List SReading) (duid : String) : DuidSummary :=
  let sub := subSorted df duid
  let p := sub.map (·.power_MW)
  let n : ℚ := p.length
  let ramp := oramps p
  let validRamp := ramp.filterMap id
  let runs := findZeroRuns p 3
  let tsList := sub.map (·.ts)
  { duid := duid
    n_rows := sub.length
    zero_frac := ((p.filter (fun x => x == some 0)).length : ℚ) / n
    neg_frac := ((p.filter (fun x => fltOpt x (some 0))).length : ℚ) / n
    ramp_max := nanmaxQ ramp
    ramp_95p := if validRamp = [] then 0 else percentile95 validRamp
    outages := runs.map (fun ab => (tsList.getD ab.1 0, tsList.getD ab.2 0, ab.2 - ab.1 + 1))
    anomalies := (zscoreFlags p).count true }

/-- Model of `summarize_duid` (claim-relevant fields).  An empty selection for
the unit makes `sub["timestamp"].iloc[0]` raise in the source, modelled as
`none`. -/
def summarizeDuid (df : List SReading) (duid : String) : Option DuidSummary :=
  match subSorted df duid with
  | [] => none
  | _ :: _ => some (mkSummary df duid)

/-! ## Record extractor (`parse_banner_zip_bytes` in `src/aemo_banner.py`,
`read_banner_csv_from_zip` in `src/stitch_dispatch_scada.py`)

The raw tabular blob is a grid of untyped text cells; a cell read past the end
of a row is missing (pandas fills it with NaN).  The timestamp and numeric
coercions (`pd.to_datetime` / `pd.to_numeric` with `errors="coerce"`) are
parameters of the model: the claims are about how coercion failures are
handled, not about datetime syntax. -/

/-- Uppercasing as `.str.upper()` does on the ASCII unit identifiers. -/
def strUpper (s : String) : String := ⟨s.data.map Char.toUpper⟩

/-- Model of the header test `df.iloc[:,4].str.upper() == "SETTLEMENTDATE"`:
a row is the header iff its cell at fixed column index 4 is present and equals
the sentinel label up to case. -/
def isHeaderRow (row : List String) : Bool :=
  match row.get? 4 with
  | some s => strUpper s == "SETTLEMENTDATE"
  | none => false

/-- Index of the first header row (`df.index[...].tolist()[0]`). -/
def headerIdx (grid : List (List String)) : Option ℕ :=
  (List.range grid.length).find? (fun i => isHeaderRow (grid.getD i []))

/-- Model of `parse_banner_zip_bytes` from the grid onward, parameterized by
the two coercions.  After the header, rows whose indicator column 0 is the
data tag `"D"` are kept; the settlement timestamp is column 4, the unit
identifier column 5, the value column 6.  A row whose timestamp fails coercion
is dropped; a value that fails coercion becomes NaN (`none`) but the row is
kept; unit identifiers are uppercased (`astype(str)` renders a missing cell as
the text `"nan"`). -/
def parseBanner (parseTs : String → Option ℕ) (parseNum : String → Option ℚ)
    (grid : List (List String)) : List (ℕ × String × Option ℚ) :=
  match headerIdx grid with
  | none => []
  | some h =>
    let dataRows := (grid.drop (h + 1)).filter (fun row => row.get? 0 == some "D")
    if dataRows = [] then []
    else
      dataRows.filterMap (fun row =>
        match (row.get? 4).bind parseTs with
        | none => none
        | some t =>
          some (t, strUpper ((row.get? 5).getD "nan"), (row.get? 6).bind parseNum))

/-! ## Basic lemmas about the forecaster -/

lemma rollForward_length (alpha mean : ℚ) : ∀ (ht : ℚ) (n : ℕ),
    (rollForward alpha mean ht n).length = n := by
  intro ht n
  induction n generalizing ht with
  | zero => rfl
  | succ n ih => simpa [rollForward] using ih _

lemma rollForward_getD_zero (alpha mean ht : ℚ) {n : ℕ} (hn : 0 < n) :
    (rollForward alpha mean ht n).getD 0 0 = alpha * mean + (1 - alpha) * ht := by
  cases n with
  | zero => exact absurd hn (Nat.lt_irrefl 0)
  | succ n => rfl

lemma rollForward_getD_succ (alpha mean : ℚ) : ∀ (ht : ℚ) (n i : ℕ), i + 1 < n →
    (rollForward alpha mean ht n).getD (i + 1) 0
      = alpha * mean + (1 - alpha) * (rollForward alpha mean ht n).getD i 0 := by
  intro ht n
  induction n generalizing ht with
  | zero => intro i hi; exact absurd hi (by omega)
  | succ n ih =>
    intro i hi
    cases i with
    | zero =>
      have h0 : (rollForward alpha mean ht (n + 1)).getD 0 0
          = alpha * mean + (1 - alpha) * ht :=
        rollForward_getD_zero alpha mean ht (Nat.succ_pos n)
      rw [h0]
      show (rollForward alpha mean _ n).getD 0 0 = _
      exact rollForward_getD_zero alpha mean _ (by omega)
    | succ j =>
      show (rollForward alpha mean _ n).getD (j + 1) 0
        = alpha * mean + (1 - alpha) * (rollForward alpha mean _ n).getD j 0
      exact ih _ j (by omega)

lemma fsGo_length (alpha : ℚ) : ∀ (prev hat : ℚ) (ys : List ℚ),
    (fsGo alpha prev hat ys).length = ys.length := by
  intro prev hat ys
  induction ys generalizing prev hat with
  | nil => rfl
  | cons y ys ih => simpa [fsGo] using ih _ _

lemma forecastSeries_length (alpha : ℚ) (y : List ℚ) :
    (forecastSeries alpha y).length = y.length := by
  cases y with
  | nil => rfl
  | cons y0 ys => simpa [forecastSeries] using fsGo_length alpha y0 y0 ys

lemma fsGo_getD (alpha : ℚ) : ∀ (ys : List ℚ) (prev hat : ℚ) (i : ℕ), i < ys.length →
    (fsGo alpha prev hat ys).getD i 0
      = alpha * ((prev :: ys).getD i 0)
        + (1 - alpha) * ((hat :: fsGo alpha prev hat ys).getD i 0) := by
  intro ys
  induction ys with
  | nil => intro prev hat i hi; exact absurd hi (by simp)
  | cons y t ih =>
    intro prev hat i hi
    cases i with
    | zero => rfl
    | succ j =>
      have hj : j < t.length := by simpa using hi
      show (fsGo alpha y _ t).getD j 0 = _
      rw [ih y _ j hj]
      rfl

lemma forecastSeries_getD_succ (alpha : ℚ) (y : List ℚ) (i : ℕ) (hi : i + 1 < y.length) :
    (forecastSeries alpha y).getD (i + 1) 0
      = alpha * y.getD i 0 + (1 - alpha) * (forecastSeries alpha y).getD i 0 := by
  cases y with
  | nil => exact absurd hi (by simp)
  | cons y0 ys =>
    have hyi : i < ys.length := by simpa using hi
    show (fsGo alpha y0 y0 ys).getD i 0 = _
    rw [fsGo_getD alpha ys y0 y0 i hyi]
    rfl

lemma forecastUnit_fst_length (cfg : ForecastConfig) (idxNext : List ℕ) (u : String)
    (sub : List Reading) : (forecastUnit cfg idxNext u sub).1.length = idxNext.length := by
  simp [forecastUnit, rollForward_length]

lemma flatten_map_length_const {α β : Type} (k : ℕ) (f : α → List β) :
    ∀ (us : List α), (∀ u, (f u).length = k) →
      ((us.map f).flatten).length = k * us.length := by
  intro us hf
  induction us with
  | nil => simp
  | cons u us ih => simp [hf u, ih, Nat.mul_succ, Nat.add_comm]

lemma idxNextOf_length (t0 : ℕ) : (idxNextOf t0).length = 288 := by
  simp [idxNextOf]

lemma forecastNextDay_cons (cfg : ForecastConfig) (r0 : Reading) (rest : List Reading) :
    forecastNextDay cfg (r0 :: rest)
      = some (((unitsOf (r0 :: rest)).map
            (fun u => (forecastUnit cfg (idxNextOf r0.ts) u (subFor (r0 :: rest) u)).1)).flatten,
          ((unitsOf (r0 :: rest)).map
            (fun u => (forecastUnit cfg (idxNextOf r0.ts) u (subFor (r0 :: rest) u)).2)).flatten) := rfl

lemma forecastNextDay_of_ne_nil (cfg : ForecastConfig) (df : List Reading) (hdf : df ≠ []) :
    ∃ pr, forecastNextDay cfg df = some pr ∧ pr.1.length = 288 * (unitsOf df).length := by
  cases df with
  | nil => exact absurd rfl hdf
  | cons r0 rest =>
    refine ⟨_, forecastNextDay_cons cfg r0 rest, ?_⟩
    exact flatten_map_length_const 288 _ (unitsOf (r0 :: rest))
      (fun u => by rw [forecastUnit_fst_length, idxNextOf_length])

/-! ## Claim C1 -/

/-- C1, as stated by the spec: a config with `alpha` outside `(0,1]` or a
negative `ramp_alert_sigma` is rejected at the boundary of
`forecast_next_day`, producing no forecast rows.  This is false: the source
performs no validation at all.  With `alpha = 2` (outside `(0,1]`) and
`ramp_alert_sigma = -1` (negative) on a one-reading input, the call proceeds
and produces 288 forecast rows. -/
theorem C1_counterexample :
    ¬ (0 < (2 : ℚ) ∧ (2 : ℚ) ≤ 1) ∧ ((-1 : ℚ) < 0) ∧
      (forecastNextDay ⟨2, -1⟩ [⟨0, "A", 1⟩]).map (fun pr => pr.1.length) = some 288 := by
  refine ⟨by norm_num, by norm_num, ?_⟩
  obtain ⟨pr, hpr, hlen⟩ := forecastNextDay_of_ne_nil ⟨2, -1⟩ [⟨0, "A", 1⟩] (by simp)
  have hu : (unitsOf [⟨0, "A", 1⟩]).length = 1 := by decide
  rw [hpr]
  simp [hlen, hu]

/-- C1 amended: `forecast_next_day` performs no config validation; for every
config, including one with `alpha` outside `(0,1]` or negative
`ramp_alert_sigma`, a nonempty input is processed and yields the full
288-row-per-unit forecast table. -/
theorem C1_no_validation (cfg : ForecastConfig) (df : List Reading) (hdf : df ≠ []) :
    ∃ pr, forecastNextDay cfg df = some pr ∧ pr.1.length = 288 * (unitsOf df).length :=
  forecastNextDay_of_ne_nil cfg df hdf

/-- Witness for C1: the amended theorem applied to the invalid config
`alpha = 2`, `ramp_alert_sigma = -1` and a concrete one-reading input. -/
theorem C1_no_validation_witness :
    ([(⟨0, "A", 1⟩ : Reading)] ≠ []) ∧
      ∃ pr, forecastNextDay ⟨2, -1⟩ [⟨0, "A", 1⟩] = some pr ∧
        pr.1.length = 288 * (unitsOf [⟨0, "A", 1⟩]).length :=
  ⟨by simp, C1_no_validation ⟨2, -1⟩ [⟨0, "A", 1⟩] (by simp)⟩

/-! ## Claim C2 -/

/-- C2: the spec requires a zero-row input to yield well-formed empty forecast
and alert tables.  The source instead raises `IndexError` on the empty frame
(`df["timestamp"].dt.strftime("%Y-%m-%d").iloc[0]` with no row 0), modelled
here by `forecastNextDay` returning `none` rather than an empty pair: the code
contradicts the intent visible in its own fallback branch
(`pd.concat(...) if out_rows else pd.DataFrame()`). -/
theorem C2_empty_input_raises (cfg : ForecastConfig) :
    forecastNextDay cfg [] = none := rfl

/-! ## Claim C3 -/

lemma map_snd_zip_of_length_le {α β : Type} :
    ∀ (l1 : List α) (l2 : List β), l2.length ≤ l1.length →
      (l1.zip l2).map Prod.snd = l2 := by
  intro l1
  induction l1 with
  | nil => intro l2 h; simp at h; simp [h]
  | cons a l1 ih =>
    intro l2 h
    cases l2 with
    | nil => rfl
    | cons b l2 => simpa using ih l2 (by simpa using h)

lemma forecastUnit_fst_vals (cfg : ForecastConfig) (idxNext : List ℕ) (u : String)
    (sub : List Reading) :
    (forecastUnit cfg idxNext u sub).1.map (·.power_hat_MW)
      = rollForward cfg.alpha (meanOf (sub.map (·.power_MW)))
          ((forecastSeries cfg.alpha (sub.map (·.power_MW))).getLastD 0) idxNext.length := by
  simp only [forecastUnit, List.map_map]
  show (idxNext.zip _).map Prod.snd = _
  exact map_snd_zip_of_length_le _ _ (le_of_eq (rollForward_length _ _ _ _))

/-- C3, as stated by the spec: the smoothed series is computed on the
forward-filled input.  This is false: no forward fill exists in the source and
a missing value propagates through the recurrence instead.  On the concrete
series `[10, NaN, 7]` with `alpha = 1` the source recurrence yields NaN at
index 2, while smoothing the forward-filled series yields a defined value. -/
theorem C3_counterexample :
    forecastSeriesOpt 1 [some 10, none, some 7]
      ≠ forecastSeriesOpt 1 (ffillSpec [some 10, none, some 7]) := by
  intro h
  have h2 := congrArg (fun l => l.get? 2) h
  simp [forecastSeriesOpt, fsGoOpt, ffillSpec, ffillGo, oadd, smul] at h2

/-- C3 amended: no forward fill is applied (a missing value propagates through
the smoothing, see the counterexample); on the raw series the smoothing obeys
exactly `smoothed[0] = value[0]`,
`smoothed[i] = alpha * value[i-1] + (1 - alpha) * smoothed[i-1]`; with
`alpha = 1` this reduces to `smoothed[i] = value[i-1]`; and each unit output
curve is produced by iterating `level := alpha * mean + (1 - alpha) * level`
once per slot, seeded at the last smoothed value. -/
theorem C3_recurrence (alpha : ℚ) (y : List ℚ) (hy : y ≠ []) :
    (forecastSeries alpha y).length = y.length ∧
    (forecastSeries alpha y).getD 0 0 = y.getD 0 0 ∧
    (∀ i, i + 1 < y.length →
      (forecastSeries alpha y).getD (i + 1) 0
        = alpha * y.getD i 0 + (1 - alpha) * (forecastSeries alpha y).getD i 0) ∧
    (alpha = 1 → ∀ i, i + 1 < y.length →
      (forecastSeries alpha y).getD (i + 1) 0 = y.getD i 0) ∧
    (∀ mean ht n, (rollForward alpha mean ht n).length = n ∧
      (0 < n → (rollForward alpha mean ht n).getD 0 0 = alpha * mean + (1 - alpha) * ht) ∧
      (∀ i, i + 1 < n → (rollForward alpha mean ht n).getD (i + 1) 0
        = alpha * mean + (1 - alpha) * (rollForward alpha mean ht n).getD i 0)) ∧
    (∀ (cfg : ForecastConfig) (idxNext : List ℕ) (u : String) (sub : List Reading),
      (forecastUnit cfg idxNext u sub).1.map (·.power_hat_MW)
        = rollForward cfg.alpha (meanOf (sub.map (·.power_MW)))
            ((forecastSeries cfg.alpha (sub.map (·.power_MW))).getLastD 0) idxNext.length) := by
  refine ⟨forecastSeries_length alpha y, ?_, fun i hi => forecastSeries_getD_succ alpha y i hi,
    ?_, ?_, forecastUnit_fst_vals⟩
  · cases y with
    | nil => exact absurd rfl hy
    | cons y0 ys => rfl
  · intro h1 i hi
    rw [forecastSeries_getD_succ alpha y i hi, h1]
    ring
  · intro mean ht n
    exact ⟨rollForward_length alpha mean ht n,
      fun hn => rollForward_getD_zero alpha mean ht hn,
      fun i hi => rollForward_getD_succ alpha mean ht n i hi⟩

/-- Witness for C3: the amended theorem applied at `alpha = 1` and the
concrete series `[2, 5]`. -/
theorem C3_recurrence_witness :
    (([2, 5] : List ℚ) ≠ []) ∧
    ((forecastSeries 1 [2, 5]).length = ([2, 5] : List ℚ).length ∧
      (forecastSeries 1 [2, 5]).getD 0 0 = ([2, 5] : List ℚ).getD 0 0 ∧
      (∀ i, i + 1 < ([2, 5] : List ℚ).length →
        (forecastSeries 1 [2, 5]).getD (i + 1) 0
          = 1 * ([2, 5] : List ℚ).getD i 0
            + (1 - 1) * (forecastSeries 1 [2, 5]).getD i 0) ∧
      ((1 : ℚ) = 1 → ∀ i, i + 1 < ([2, 5] : List ℚ).length →
        (forecastSeries 1 [2, 5]).getD (i + 1) 0 = ([2, 5] : List ℚ).getD i 0) ∧
      (∀ mean ht n, (rollForward 1 mean ht n).length = n ∧
        (0 < n → (rollForward 1 mean ht n).getD 0 0 = 1 * mean + (1 - 1) * ht) ∧
        (∀ i, i + 1 < n → (rollForward 1 mean ht n).getD (i + 1) 0
          = 1 * mean + (1 - 1) * (rollForward 1 mean ht n).getD i 0)) ∧
      (∀ (cfg : ForecastConfig) (idxNext : List ℕ) (u : String) (sub : List Reading),
        (forecastUnit cfg idxNext u sub).1.map (·.power_hat_MW)
          = rollForward cfg.alpha (meanOf (sub.map (·.power_MW)))
              ((forecastSeries cfg.alpha (sub.map (·.power_MW))).getLastD 0) idxNext.length)) :=
  ⟨by simp, C3_recurrence 1 [2, 5] (by simp)⟩

/-! ## Claim C4 -/

/-- The power series of one unit group (`sub["power_MW"]`). -/
def unitSeries (sub : List Reading) : List ℚ := sub.map (·.power_MW)

/-- The 288-slot forecast curve of one unit: the forward roll seeded at the
last smoothed value, with the day mean as attractor. -/
def unitCurve (cfg : ForecastConfig) (idxNext : List ℕ) (sub : List Reading) : List ℚ :=
  rollForward cfg.alpha (meanOf (unitSeries sub))
    ((forecastSeries cfg.alpha (unitSeries sub)).getLastD 0) idxNext.length

lemma forecastUnit_snd_eq (cfg : ForecastConfig) (idxNext : List ℕ) (u : String)
    (sub : List Reading) :
    (forecastUnit cfg idxNext u sub).2
      = if diffs (unitSeries sub) ≠ [] ∧ 0 < popVar (diffs (unitSeries sub))
            ∧ 0 < cfg.ramp_alert_sigma then
          ((List.range idxNext.length).filter
              (fun i => decide (cfg.ramp_alert_sigma ^ 2 * popVar (diffs (unitSeries sub))
                ≤ (rampDeltas (unitCurve cfg idxNext sub)).getD i 0 ^ 2))).map
            (fun i => ⟨idxNext.getD i 0, u, (rampDeltas (unitCurve cfg idxNext sub)).getD i 0⟩)
        else [] := rfl

lemma rampDeltas_getD_zero (ph : List ℚ) (hph : ph ≠ []) :
    (rampDeltas ph).getD 0 1 = 0 := by
  cases ph with
  | nil => exact absurd rfl hph
  | cons h t => simp [rampDeltas]

/-- C4: per unit, alerts are derived from the threshold
`ramp_alert_sigma * std(diff of the input day, population variant)`: a
degenerate or nonpositive threshold (no defined difference, zero variance, or
nonpositive sigma) emits no alerts; otherwise slot `i` is an alert exactly when
its absolute forecast delta (the first taken against itself, yielding 0) meets
the threshold — stated squared over ℚ since the std is a square root — and
re-running the ramp-delta computation on the forecast output reproduces each
alert value. -/
theorem C4_ramp_alerts (cfg : ForecastConfig) (idxNext : List ℕ) (u : String)
    (sub : List Reading) :
    ((diffs (unitSeries sub) = [] ∨ popVar (diffs (unitSeries sub)) ≤ 0
        ∨ cfg.ramp_alert_sigma ≤ 0) → (forecastUnit cfg idxNext u sub).2 = []) ∧
    (idxNext ≠ [] → (rampDeltas (unitCurve cfg idxNext sub)).getD 0 1 = 0) ∧
    (diffs (unitSeries sub) ≠ [] → 0 < popVar (diffs (unitSeries sub)) →
      0 < cfg.ramp_alert_sigma →
      (forecastUnit cfg idxNext u sub).2
        = ((List.range idxNext.length).filter
            (fun i => decide (cfg.ramp_alert_sigma ^ 2 * popVar (diffs (unitSeries sub))
              ≤ (rampDeltas (unitCurve cfg idxNext sub)).getD i 0 ^ 2))).map
          (fun i => ⟨idxNext.getD i 0, u, (rampDeltas (unitCurve cfg idxNext sub)).getD i 0⟩)) ∧
    (∀ a ∈ (forecastUnit cfg idxNext u sub).2, ∃ i, i < idxNext.length ∧
      a.ts = idxNext.getD i 0 ∧
      a.predicted_ramp_MW
        = (rampDeltas ((forecastUnit cfg idxNext u sub).1.map (·.power_hat_MW))).getD i 0) := by
  refine ⟨?_, ?_, ?_, ?_⟩
  · intro hdeg
    rw [forecastUnit_snd_eq, if_neg]
    intro ⟨h1, h2, h3⟩
    rcases hdeg with h | h | h
    · exact h1 h
    · exact absurd h2 (not_lt.mpr h)
    · exact absurd h3 (not_lt.mpr h)
  · intro hidx
    apply rampDeltas_getD_zero
    intro hc
    apply hidx
    have := rollForward_length cfg.alpha (meanOf (unitSeries sub))
      ((forecastSeries cfg.alpha (unitSeries sub)).getLastD 0) idxNext.length
    rw [unitCurve] at hc
    rw [hc] at this
    exact List.length_eq_zero.mp this.symm
  · intro h1 h2 h3
    rw [forecastUnit_snd_eq, if_pos ⟨h1, h2, h3⟩]
  · intro a ha
    rw [forecastUnit_snd_eq] at ha
    by_cases hcond : diffs (unitSeries sub) ≠ [] ∧ 0 < popVar (diffs (unitSeries sub))
        ∧ 0 < cfg.ramp_alert_sigma
    · rw [if_pos hcond] at ha
      obtain ⟨i, hi, rfl⟩ := List.mem_map.mp ha
      have hilen : i < idxNext.length := List.mem_range.mp (List.mem_filter.mp hi).1
      refine ⟨i, hilen, rfl, ?_⟩
      have hvals := forecastUnit_fst_vals cfg idxNext u sub
      rw [hvals]
      rfl
    · rw [if_neg hcond] at ha
      exact absurd ha (List.not_mem_nil a)

/-- Witness for C4: on a two-reading flat unit the only defined difference is
0, so the variance is 0 and no alert is emitted. -/
theorem C4_ramp_alerts_witness :
    (popVar (diffs (unitSeries [⟨0, "A", 5⟩, ⟨5, "A", 5⟩])) ≤ 0) ∧
      (forecastUnit ⟨1, 2⟩ (idxNextOf 0) "A" [⟨0, "A", 5⟩, ⟨5, "A", 5⟩]).2 = [] := by
  have hv : popVar (diffs (unitSeries [⟨0, "A", 5⟩, ⟨5, "A", 5⟩])) ≤ 0 := by
    norm_num [popVar, diffs, unitSeries, meanOf]
  exact ⟨hv, (C4_ramp_alerts ⟨1, 2⟩ (idxNextOf 0) "A" [⟨0, "A", 5⟩, ⟨5, "A", 5⟩]).1
    (Or.inr (Or.inl hv))⟩

/-! ## Claim C5 -/

lemma map_fst_zip_of_length_le {α β : Type} :
    ∀ (l1 : List α) (l2 : List β), l1.length ≤ l2.length →
      (l1.zip l2).map Prod.fst = l1 := by
  intro l1
  induction l1 with
  | nil => intro l2 h; rfl
  | cons a l1 ih =>
    intro l2 h
    cases l2 with
    | nil => simp at h
    | cons b l2 => simpa using ih l2 (by simpa using h)

lemma forecastUnit_fst_ts (cfg : ForecastConfig) (idxNext : List ℕ) (u : String)
    (sub : List Reading) :
    (forecastUnit cfg idxNext u sub).1.map (·.ts) = idxNext := by
  simp only [forecastUnit, List.map_map]
  show (idxNext.zip _).map Prod.fst = _
  exact map_fst_zip_of_length_le _ _ (le_of_eq (rollForward_length _ _ _ _).symm)

lemma forecastUnit_fst_duid (cfg : ForecastConfig) (idxNext : List ℕ) (u : String)
    (sub : List Reading) :
    ∀ x ∈ (forecastUnit cfg idxNext u sub).1, x.duid = u := by
  intro x hx
  simp only [forecastUnit, List.mem_map] at hx
  obtain ⟨tv, _, rfl⟩ := hx
  rfl

lemma unitsOf_nodup (df : List Reading) : (unitsOf df).Nodup :=
  (List.perm_insertionSort _ _).symm.nodup (List.nodup_dedup _)

lemma filter_flatten_eq_nil {α : Type} (key : α → String) :
    ∀ (us : List String) (f : String → List α),
      (∀ u x, x ∈ f u → key x = u) → ∀ u0, u0 ∉ us →
      ((us.map f).flatten).filter (fun x => key x == u0) = [] := by
  intro us
  induction us with
  | nil => intro f _ u0 _; rfl
  | cons u us ih =>
    intro f hkey u0 hu0
    have hne : u ≠ u0 := fun h => hu0 (h ▸ List.mem_cons_self u us)
    simp only [List.map_cons, List.flatten_cons, List.filter_append]
    rw [List.filter_eq_nil.mpr, ih f hkey u0 (fun h => hu0 (List.mem_cons_of_mem u h)),
      List.append_nil]
    intro x hx
    simp only [beq_iff_eq]
    rw [hkey u x hx]
    exact hne

lemma filter_flatten_eq_block {α : Type} (key : α → String) :
    ∀ (us : List String) (f : String → List α),
      us.Nodup → (∀ u x, x ∈ f u → key x = u) → ∀ u0 ∈ us,
      ((us.map f).flatten).filter (fun x => key x == u0) = f u0 := by
  intro us
  induction us with
  | nil => intro f _ _ u0 h; exact absurd h (List.not_mem_nil u0)
  | cons u us ih =>
    intro f hnd hkey u0 hu0
    simp only [List.map_cons, List.flatten_cons, List.filter_append]
    rcases List.mem_cons.mp hu0 with rfl | hmem
    · rw [List.filter_eq_self.mpr, filter_flatten_eq_nil key us f hkey u0
        (List.Nodup.not_mem hnd), List.append_nil]
      intro x hx
      simp [hkey u0 x hx]
    · have hne : u ≠ u0 := by
        rintro rfl
        exact (List.Nodup.not_mem hnd) hmem
      rw [List.filter_eq_nil.mpr, ih f (List.Nodup.of_cons hnd) hkey u0 hmem,
        List.nil_append]
      intro x hx
      simp only [beq_iff_eq]
      rw [hkey u x hx]
      exact hne

lemma idxNextOf_getD (t0 i : ℕ) (hi : i < 288) :
    (idxNextOf t0).getD i 0 = floorDay t0 + 1440 + 5 * i := by
  have h : i < (idxNextOf t0).length := by rw [idxNextOf_length]; exact hi
  rw [List.getD_eq_getElem _ _ h]
  simp [idxNextOf]

/-- The forecast block of one unit inside the concatenated table: filtering the
full forecast table by the unit identifier recovers exactly the rows the unit
loop emitted. -/
lemma forecastNextDay_unit_block (cfg : ForecastConfig) (r0 : Reading)
    (rest : List Reading) (u : String) (hu : u ∈ unitsOf (r0 :: rest)) :
    ∃ pr, forecastNextDay cfg (r0 :: rest) = some pr ∧
      pr.1.filter (fun x => x.duid == u)
        = (forecastUnit cfg (idxNextOf r0.ts) u (subFor (r0 :: rest) u)).1 := by
  refine ⟨_, forecastNextDay_cons cfg r0 rest, ?_⟩
  exact filter_flatten_eq_block (fun x => x.duid) (unitsOf (r0 :: rest)) _
    (unitsOf_nodup _) (fun v x hx => forecastUnit_fst_duid cfg _ v _ x hx) u hu

/-- C5: for every unit present in a nonempty single-day input, the forecast
table contains exactly 288 rows for that unit, the row at slot `i` carrying
timestamp `floorDay t0 + 1440 + 5 i` (the day after the floored input day,
midnight to midnight at 5-minute spacing). -/
theorem C5_forecast_grid (cfg : ForecastConfig) (df : List Reading) (r0 : Reading)
    (rest : List Reading) (hdf : df = r0 :: rest)
    (hday : ∀ r ∈ df, floorDay r.ts = floorDay r0.ts) (u : String)
    (hu : u ∈ unitsOf df) :
    ∃ pr, forecastNextDay cfg df = some pr ∧
      (pr.1.filter (fun x => x.duid == u)).length = 288 ∧
      (∀ i, i < 288 → ((pr.1.filter (fun x => x.duid == u)).getD i default).ts
        = floorDay r0.ts + 1440 + 5 * i) ∧
      (∀ i, i + 1 < 288 →
        ((pr.1.filter (fun x => x.duid == u)).getD (i + 1) default).ts
          = ((pr.1.filter (fun x => x.duid == u)).getD i default).ts + 5) := by
  subst hdf
  obtain ⟨pr, hpr, hblock⟩ := forecastNextDay_unit_block cfg r0 rest u hu
  have hts : ∀ i, i < 288 → ((pr.1.filter (fun x => x.duid == u)).getD i default).ts
      = floorDay r0.ts + 1440 + 5 * i := by
    intro i hi
    rw [hblock]
    have hi2 : i < (forecastUnit cfg (idxNextOf r0.ts) u (subFor (r0 :: rest) u)).1.length := by
      rw [forecastUnit_fst_length, idxNextOf_length]; exact hi
    rw [List.getD_eq_getElem _ _ hi2]
    have h3 := congrArg (fun l => l.get? i)
      (forecastUnit_fst_ts cfg (idxNextOf r0.ts) u (subFor (r0 :: rest) u))
    dsimp only at h3
    rw [List.get?_map, List.get?_eq_get hi2] at h3
    have h5 : i < (idxNextOf r0.ts).length := by rw [idxNextOf_length]; exact hi
    rw [List.get?_eq_get h5] at h3
    have h6 : (idxNextOf r0.ts).get ⟨i, h5⟩ = floorDay r0.ts + 1440 + 5 * i := by
      rw [List.get_eq_getElem]
      simp [idxNextOf]
    rw [h6] at h3
    simpa using h3
  refine ⟨pr, hpr, ?_, hts, ?_⟩
  · rw [hblock, forecastUnit_fst_length, idxNextOf_length]
  · intro i hi
    rw [hts (i + 1) hi, hts i (by omega)]
    ring

/-- Witness for C5: the concrete one-reading input at minute 30 of day 0; the
unit block starts at minute 1440 (midnight of the next day). -/
theorem C5_forecast_grid_witness :
    (([⟨30, "A", 5⟩] : List Reading) = [⟨30, "A", 5⟩] ∧
      (∀ r ∈ ([⟨30, "A", 5⟩] : List Reading), floorDay r.ts = floorDay 30) ∧
      "A" ∈ unitsOf [⟨30, "A", 5⟩]) ∧
    ∃ pr, forecastNextDay ⟨3 / 10, 2⟩ [⟨30, "A", 5⟩] = some pr ∧
      (pr.1.filter (fun x => x.duid == "A")).length = 288 ∧
      (∀ i, i < 288 → ((pr.1.filter (fun x => x.duid == "A")).getD i default).ts
        = floorDay 30 + 1440 + 5 * i) ∧
      (∀ i, i + 1 < 288 →
        ((pr.1.filter (fun x => x.duid == "A")).getD (i + 1) default).ts
          = ((pr.1.filter (fun x => x.duid == "A")).getD i default).ts + 5) :=
  ⟨⟨rfl, by simp, by decide⟩,
    C5_forecast_grid ⟨3 / 10, 2⟩ [⟨30, "A", 5⟩] ⟨30, "A", 5⟩ [] rfl (by simp) "A" (by decide)⟩

/-! ## Claim C10 -/

lemma convex_min_le (alpha m h : ℚ) (h0 : 0 ≤ alpha) (h1 : alpha ≤ 1) :
    min m h ≤ alpha * m + (1 - alpha) * h ∧ alpha * m + (1 - alpha) * h ≤ max m h := by
  have hc : (0 : ℚ) ≤ 1 - alpha := by linarith
  have e1 : alpha * min m h ≤ alpha * m := mul_le_mul_of_nonneg_left (min_le_left m h) h0
  have e2 : (1 - alpha) * min m h ≤ (1 - alpha) * h :=
    mul_le_mul_of_nonneg_left (min_le_right m h) hc
  have e3 : alpha * m ≤ alpha * max m h := mul_le_mul_of_nonneg_left (le_max_left m h) h0
  have e4 : (1 - alpha) * h ≤ (1 - alpha) * max m h :=
    mul_le_mul_of_nonneg_left (le_max_right m h) hc
  have q1 : alpha * min m h + (1 - alpha) * min m h = min m h := by ring
  have q2 : alpha * max m h + (1 - alpha) * max m h = max m h := by ring
  constructor
  · linarith
  · linarith

lemma rollForward_mem_between (alpha mean : ℚ) (h0 : 0 ≤ alpha) (h1 : alpha ≤ 1) :
    ∀ (ht : ℚ) (n : ℕ), ∀ x ∈ rollForward alpha mean ht n,
      min mean ht ≤ x ∧ x ≤ max mean ht := by
  intro ht n
  induction n generalizing ht with
  | zero => intro x hx; simp [rollForward] at hx
  | succ n ih =>
    intro x hx
    simp only [rollForward] at hx
    have hh := convex_min_le alpha mean ht h0 h1
    rcases List.mem_cons.mp hx with rfl | hx'
    · exact hh
    · have hrec := ih (alpha * mean + (1 - alpha) * ht) x hx'
      constructor
      · exact le_trans (le_min (min_le_left _ _) hh.1) hrec.1
      · exact le_trans hrec.2 (max_le (le_max_left _ _) hh.2)

lemma rollForward_dist_mono (alpha mean ht : ℚ) (h0 : 0 < alpha) (h1 : alpha ≤ 1)
    (n i : ℕ) (hi : i + 1 < n) :
    |(rollForward alpha mean ht n).getD (i + 1) 0 - mean|
      ≤ |(rollForward alpha mean ht n).getD i 0 - mean| := by
  rw [rollForward_getD_succ alpha mean ht n i hi]
  have he : alpha * mean + (1 - alpha) * (rollForward alpha mean ht n).getD i 0 - mean
      = (1 - alpha) * ((rollForward alpha mean ht n).getD i 0 - mean) := by ring
  rw [he, abs_mul, abs_of_nonneg (by linarith : (0 : ℚ) ≤ 1 - alpha)]
  have := abs_nonneg ((rollForward alpha mean ht n).getD i 0 - mean)
  nlinarith

lemma forecastUnit_fst_val_getD (cfg : ForecastConfig) (idxNext : List ℕ) (u : String)
    (sub : List Reading) (i : ℕ) (hi : i < idxNext.length) :
    ((forecastUnit cfg idxNext u sub).1.getD i default).power_hat_MW
      = (unitCurve cfg idxNext sub).getD i 0 := by
  have hi2 : i < (forecastUnit cfg idxNext u sub).1.length := by
    rw [forecastUnit_fst_length]; exact hi
  rw [List.getD_eq_getElem _ _ hi2]
  have h3 := congrArg (fun l => l.get? i) (forecastUnit_fst_vals cfg idxNext u sub)
  dsimp only at h3
  rw [List.get?_map, List.get?_eq_get hi2] at h3
  have h5 : i < (unitCurve cfg idxNext sub).length := by
    rw [unitCurve, rollForward_length]; exact hi
  rw [show rollForward cfg.alpha (meanOf (sub.map (·.power_MW)))
      ((forecastSeries cfg.alpha (sub.map (·.power_MW))).getLastD 0) idxNext.length
      = unitCurve cfg idxNext sub from rfl, List.get?_eq_get h5] at h3
  have h6 := Option.some.inj h3
  rw [List.getD_eq_getElem _ _ h5]
  simpa [List.get_eq_getElem] using h6

lemma oadd_none_right (x : Option ℚ) : oadd x none = none := by
  cases x <;> rfl

lemma rollForwardOpt_none (alpha : ℚ) (m : Option ℚ) :
    ∀ n, rollForwardOpt alpha m none n = List.replicate n none := by
  intro n
  induction n with
  | zero => rfl
  | succ k ih =>
    simp only [rollForwardOpt]
    rw [show smul (1 - alpha) (none : Option ℚ) = none from rfl, oadd_none_right, ih]
    rfl

/-- C10, as stated over every unit with at least one reading, fails when a
reading has missing power: on the series `[NaN, 10]` (which has a reading,
and whose skip-NaN day mean is 10) the smoothed seed is NaN and every one of
the 288 forecast values is NaN, so under float semantics no forecast value
compares into the closed interval between the day mean and the smoothed
level, and the slot-to-slot distance comparison fails as well. -/
theorem C10_counterexample :
    meanOpt [none, some (10 : ℚ)] = some 10 ∧
    (forecastSeriesOpt 1 [none, some (10 : ℚ)]).getLastD none = none ∧
    unitCurveOpt 1 [none, some (10 : ℚ)] 288 = List.replicate 288 none ∧
    fleOpt (meanOpt [none, some (10 : ℚ)])
      ((unitCurveOpt 1 [none, some (10 : ℚ)] 288).getD 0 none) = false ∧
    fleOpt ((unitCurveOpt 1 [none, some (10 : ℚ)] 288).getD 0 none)
      (meanOpt [none, some (10 : ℚ)]) = false ∧
    fleOpt (oabs (osub ((unitCurveOpt 1 [none, some (10 : ℚ)] 288).getD 1 none)
        (meanOpt [none, some (10 : ℚ)])))
      (oabs (osub ((unitCurveOpt 1 [none, some (10 : ℚ)] 288).getD 0 none)
        (meanOpt [none, some (10 : ℚ)]))) = false := by
  have hmean : meanOpt [none, some (10 : ℚ)] = some 10 := by
    simp [meanOpt, List.filterMap_cons]
  have hseed : (forecastSeriesOpt 1 [none, some (10 : ℚ)]).getLastD none = none := by decide
  have hcurve : unitCurveOpt 1 [none, some (10 : ℚ)] 288 = List.replicate 288 none := by
    rw [unitCurveOpt, hseed, rollForwardOpt_none]
  exact ⟨hmean, hseed, hcurve, by decide, by decide, by decide⟩

/-- C10 amended: for a unit whose readings all carry present (non-NaN) power
values and `alpha` in `(0,1]`, every forecast value lies in the closed
interval between the day mean and the end-of-day smoothed level, and the
absolute distance of the forecast curve from the mean is non-increasing slot
over slot: the curve converges monotonically toward the mean.  When a consumed
reading is missing, the smoothed seed and all 288 forecast values are NaN and
both comparisons fail (see the counterexample). -/
theorem C10_mean_reversion (cfg : ForecastConfig) (df : List Reading) (r0 : Reading)
    (rest : List Reading) (hdf : df = r0 :: rest) (h0 : 0 < cfg.alpha)
    (h1 : cfg.alpha ≤ 1) (u : String) (hu : u ∈ unitsOf df) :
    ∃ pr, forecastNextDay cfg df = some pr ∧
      (∀ x ∈ pr.1.filter (fun z => z.duid == u),
        min (meanOf (unitSeries (subFor df u)))
            ((forecastSeries cfg.alpha (unitSeries (subFor df u))).getLastD 0)
          ≤ x.power_hat_MW ∧
        x.power_hat_MW
          ≤ max (meanOf (unitSeries (subFor df u)))
              ((forecastSeries cfg.alpha (unitSeries (subFor df u))).getLastD 0)) ∧
      (∀ i, i + 1 < 288 →
        |((pr.1.filter (fun z => z.duid == u)).getD (i + 1) default).power_hat_MW
            - meanOf (unitSeries (subFor df u))|
          ≤ |((pr.1.filter (fun z => z.duid == u)).getD i default).power_hat_MW
              - meanOf (unitSeries (subFor df u))|) := by
  subst hdf
  obtain ⟨pr, hpr, hblock⟩ := forecastNextDay_unit_block cfg r0 rest u hu
  refine ⟨pr, hpr, ?_, ?_⟩
  · intro x hx
    rw [hblock] at hx
    have hv : x.power_hat_MW ∈ unitCurve cfg (idxNextOf r0.ts) (subFor (r0 :: rest) u) := by
      have := forecastUnit_fst_vals cfg (idxNextOf r0.ts) u (subFor (r0 :: rest) u)
      rw [show rollForward cfg.alpha (meanOf ((subFor (r0 :: rest) u).map (·.power_MW)))
          ((forecastSeries cfg.alpha ((subFor (r0 :: rest) u).map (·.power_MW))).getLastD 0)
          (idxNextOf r0.ts).length
          = unitCurve cfg (idxNextOf r0.ts) (subFor (r0 :: rest) u) from rfl] at this
      rw [← this]
      exact List.mem_map_of_mem (·.power_hat_MW) hx
    exact rollForward_mem_between cfg.alpha _ (le_of_lt h0) h1 _ _ _ hv
  · intro i hi
    rw [hblock, forecastUnit_fst_val_getD cfg _ u _ (i + 1)
        (by rw [idxNextOf_length]; exact hi),
      forecastUnit_fst_val_getD cfg _ u _ i (by rw [idxNextOf_length]; omega)]
    have hlen : (idxNextOf r0.ts).length = 288 := idxNextOf_length r0.ts
    exact rollForward_dist_mono cfg.alpha _ _ h0 h1 _ i (by rw [hlen]; exact hi)

/-- Witness for C10: the default config (`alpha = 3/10`) on a concrete
one-reading input. -/
theorem C10_mean_reversion_witness :
    (([⟨30, "A", 5⟩] : List Reading) = [⟨30, "A", 5⟩] ∧ (0 : ℚ) < 3 / 10 ∧
      (3 / 10 : ℚ) ≤ 1 ∧ "A" ∈ unitsOf [⟨30, "A", 5⟩]) ∧
    ∃ pr, forecastNextDay ⟨3 / 10, 2⟩ [⟨30, "A", 5⟩] = some pr ∧
      (∀ x ∈ pr.1.filter (fun z => z.duid == "A"),
        min (meanOf (unitSeries (subFor [⟨30, "A", 5⟩] "A")))
            ((forecastSeries (3 / 10 : ℚ) (unitSeries (subFor [⟨30, "A", 5⟩] "A"))).getLastD 0)
          ≤ x.power_hat_MW ∧
        x.power_hat_MW
          ≤ max (meanOf (unitSeries (subFor [⟨30, "A", 5⟩] "A")))
              ((forecastSeries (3 / 10 : ℚ)
                (unitSeries (subFor [⟨30, "A", 5⟩] "A"))).getLastD 0)) ∧
      (∀ i, i + 1 < 288 →
        |((pr.1.filter (fun z => z.duid == "A")).getD (i + 1) default).power_hat_MW
            - meanOf (unitSeries (subFor [⟨30, "A", 5⟩] "A"))|
          ≤ |((pr.1.filter (fun z => z.duid == "A")).getD i default).power_hat_MW
              - meanOf (unitSeries (subFor [⟨30, "A", 5⟩] "A"))|) :=
  ⟨⟨rfl, by norm_num, by norm_num, by decide⟩,
    C10_mean_reversion ⟨3 / 10, 2⟩ [⟨30, "A", 5⟩] ⟨30, "A", 5⟩ [] rfl (by norm_num)
      (by norm_num) "A" (by decide)⟩

/-! ## Claim C6: zero-run detection -/

/-- The predicate the spec describes, relative to the boolean zero mask: the
index range `[a, b]` is a maximal contiguous run of set positions. -/
def isMaxZeroRun (z : List Bool) (a b : ℕ) : Prop :=
  a ≤ b ∧ b < z.length ∧
  (∀ j, a ≤ j → j ≤ b → z.getD j false = true) ∧
  (a = 0 ∨ z.getD (a - 1) false = false) ∧
  (b + 1 = z.length ∨ z.getD (b + 1) false = false)

lemma edgeIdxs_mem_iff (z : List Bool) (j : ℕ) :
    j ∈ edgeIdxs z ↔ j < z.length ∧ isEdge z j = true := by
  simp [edgeIdxs, List.mem_filter, List.mem_range]

lemma edgeIdxs_sorted (z : List Bool) : (edgeIdxs z).Pairwise (· < ·) :=
  (List.pairwise_lt_range _).filter _

lemma boundaries_sorted (z : List Bool) : (boundaries z).Pairwise (· < ·) := by
  rw [boundaries]
  apply List.pairwise_append.mpr
  refine ⟨edgeIdxs_sorted z, List.pairwise_singleton _ _, ?_⟩
  intro a ha b hb
  rw [List.mem_singleton.mp hb]
  exact ((edgeIdxs_mem_iff z a).mp ha).1

lemma zip_tail_mem_iff : ∀ {l : List ℕ}, l.Pairwise (· < ·) → ∀ {a c : ℕ},
    ((a, c) ∈ l.zip l.tail ↔
      a ∈ l ∧ c ∈ l ∧ a < c ∧ ∀ x ∈ l, ¬(a < x ∧ x < c)) := by
  intro l
  induction l with
  | nil => intro _ a c; simp
  | cons x rest ih =>
    intro hl a c
    rcases List.pairwise_cons.mp hl with ⟨hx, hrest⟩
    cases rest with
    | nil =>
      constructor
      · intro h; simp [List.zip] at h
      · rintro ⟨ha, hc, hac, -⟩
        simp only [List.mem_singleton] at ha hc
        omega
    | cons y t =>
      have hzip : (x :: y :: t).zip (x :: y :: t).tail
          = (x, y) :: ((y :: t).zip t) := rfl
      rw [hzip]
      have hy' := List.pairwise_cons.mp hrest
      constructor
      · intro h
        rcases List.mem_cons.mp h with heq | hmem
        · injection heq with h1 h2
          subst h1; subst h2
          refine ⟨List.mem_cons_self _ _,
            List.mem_cons_of_mem _ (List.mem_cons_self _ _),
            hx c (List.mem_cons_self _ _), ?_⟩
          rintro w hw ⟨haw, hwc⟩
          rcases List.mem_cons.mp hw with rfl | hw'
          · omega
          rcases List.mem_cons.mp hw' with rfl | hw''
          · omega
          · have := hy'.1 w hw''
            omega
        · obtain ⟨ha, hc, hac, hgap⟩ := (ih hrest).mp hmem
          refine ⟨List.mem_cons_of_mem _ ha, List.mem_cons_of_mem _ hc, hac, ?_⟩
          rintro w hw ⟨haw, hwc⟩
          rcases List.mem_cons.mp hw with rfl | hw'
          · have := hx a ha; omega
          · exact hgap w hw' ⟨haw, hwc⟩
      · rintro ⟨ha, hc, hac, hgap⟩
        rcases List.mem_cons.mp ha with rfl | ha'
        · rcases List.mem_cons.mp hc with rfl | hc'
          · omega
          rcases List.mem_cons.mp hc' with rfl | hc''
          · exact List.mem_cons_self _ _
          · exfalso
            have hy : a < y := hx y (List.mem_cons_self _ _)
            have hyc : y < c := hy'.1 c hc''
            exact hgap y (List.mem_cons_of_mem _ (List.mem_cons_self _ _)) ⟨hy, hyc⟩
        · have hc' : c ∈ y :: t := by
            rcases List.mem_cons.mp hc with h | h
            · exfalso; have hxa := hx a ha'; omega
            · exact h
          have hgap' : ∀ w ∈ y :: t, ¬(a < w ∧ w < c) :=
            fun w hw => hgap w (List.mem_cons_of_mem _ hw)
          exact List.mem_cons_of_mem _ ((ih hrest).mpr ⟨ha', hc', hac, hgap'⟩)

lemma zeroRunPairs_mem (z : List Bool) (minP a b : ℕ) :
    (a, b) ∈ zeroRunPairs z minP ↔
      ∃ c, (a, c) ∈ (boundaries z).zip (boundaries z).tail ∧
        z.getD a false = true ∧ minP ≤ c - a ∧ b = c - 1 := by
  simp only [zeroRunPairs, List.mem_map, List.mem_filter]
  constructor
  · rintro ⟨⟨a', c⟩, ⟨hmem, hcond⟩, heq⟩
    injection heq with h1 h2
    subst h1
    simp only [Bool.and_eq_true, decide_eq_true_eq] at hcond
    exact ⟨c, hmem, hcond.1, hcond.2, h2.symm⟩
  · rintro ⟨c, hmem, hz, hminP, rfl⟩
    refine ⟨(a, c), ⟨hmem, ?_⟩, rfl⟩
    simp only [Bool.and_eq_true, decide_eq_true_eq]
    exact ⟨hz, hminP⟩

lemma zeroRunPairs_mem_iff (z : List Bool) (minP a b : ℕ) :
    (a, b) ∈ zeroRunPairs z minP ↔ isMaxZeroRun z a b ∧ minP ≤ b + 1 - a := by
  constructor
  · intro h
    obtain ⟨c, hpair, hza, hminP, rfl⟩ := (zeroRunPairs_mem z minP a b).mp h
    obtain ⟨haL, hcL, hac, hgap⟩ := (zip_tail_mem_iff (boundaries_sorted z)).mp hpair
    have haE : a < z.length ∧ isEdge z a = true := by
      rcases List.mem_append.mp haL with h' | h'
      · exact (edgeIdxs_mem_iff z a).mp h'
      · exfalso
        rw [List.mem_singleton.mp h'] at hac
        rcases List.mem_append.mp hcL with h'' | h''
        · exact absurd ((edgeIdxs_mem_iff z c).mp h'').1 (by omega)
        · rw [List.mem_singleton.mp h''] at hac; omega
    have hclen : c ≤ z.length := by
      rcases List.mem_append.mp hcL with h'' | h''
      · exact le_of_lt ((edgeIdxs_mem_iff z c).mp h'').1
      · exact le_of_eq (List.mem_singleton.mp h'')
    have hstep : ∀ j, a < j → j ≤ c - 1 → z.getD j false = z.getD (j - 1) false := by
      intro j hj1 hj2
      have hjlen : j < z.length := by omega
      have hnotE : ¬(isEdge z j = true) := by
        intro hE
        exact hgap j (List.mem_append_left _ ((edgeIdxs_mem_iff z j).mpr ⟨hjlen, hE⟩))
          ⟨hj1, by omega⟩
      have hj0 : j ≠ 0 := by omega
      simpa [isEdge, hj0] using hnotE
    have hall : ∀ j, a ≤ j → j ≤ c - 1 → z.getD j false = true := by
      intro j hj1
      induction j, hj1 using Nat.le_induction with
      | base => intro _; exact hza
      | succ j hj ihj =>
        intro hj2
        rw [hstep (j + 1) (by omega) hj2]
        simpa using ihj (by omega)
    refine ⟨⟨by omega, by omega, hall, ?_, ?_⟩, by omega⟩
    · by_cases ha0 : a = 0
      · exact Or.inl ha0
      · refine Or.inr ?_
        have := haE.2
        simp only [isEdge, if_neg ha0, bne_iff_ne, ne_eq] at this
        rw [hza] at this
        cases hgd : z.getD (a - 1) false with
        | false => rfl
        | true => exact absurd hgd.symm this
    · rcases List.mem_append.mp hcL with h'' | h''
      · obtain ⟨hclt, hcE⟩ := (edgeIdxs_mem_iff z c).mp h''
        refine Or.inr ?_
        have hc0 : c ≠ 0 := by omega
        simp only [isEdge, if_neg hc0, bne_iff_ne, ne_eq] at hcE
        have hcm1 : z.getD (c - 1) false = true := hall (c - 1) (by omega) le_rfl
        rw [hcm1] at hcE
        have : c - 1 + 1 = c := by omega
        rw [this]
        cases hgd : z.getD c false with
        | false => rfl
        | true => exact absurd hgd hcE
      · refine Or.inl ?_
        have hc : c = z.length := List.mem_singleton.mp h''
        omega
  · rintro ⟨⟨hab, hblen, hall, hleft, hright⟩, hminP⟩
    have hza : z.getD a false = true := hall a le_rfl hab
    have haE : isEdge z a = true := by
      by_cases ha0 : a = 0
      · subst ha0; simpa [isEdge] using hza
      · have hprev : z.getD (a - 1) false = false := by
          rcases hleft with h | h
          · exact absurd h ha0
          · exact h
        rw [isEdge, if_neg ha0, hza, hprev]
        rfl
    have haIdx : a ∈ boundaries z :=
      List.mem_append_left _ ((edgeIdxs_mem_iff z a).mpr ⟨by omega, haE⟩)
    have hcB : (b + 1) ∈ boundaries z := by
      by_cases hcl : b + 1 = z.length
      · exact List.mem_append_right _ (by simp [hcl])
      · have hclt : b + 1 < z.length := by omega
        have hzc : z.getD (b + 1) false = false := by
          rcases hright with h | h
          · exact absurd h hcl
          · exact h
        refine List.mem_append_left _ ((edgeIdxs_mem_iff z (b + 1)).mpr ⟨hclt, ?_⟩)
        have hzb : z.getD b false = true := hall b hab le_rfl
        rw [isEdge, if_neg (by omega : ¬(b + 1 = 0)), Nat.add_sub_cancel, hzc, hzb]
        rfl
    have hgap : ∀ x ∈ boundaries z, ¬(a < x ∧ x < b + 1) := by
      rintro x hx ⟨hax, hxc⟩
      rcases List.mem_append.mp hx with hxE | hxL
      · obtain ⟨hxlen, hxE'⟩ := (edgeIdxs_mem_iff z x).mp hxE
        have hx0 : x ≠ 0 := by omega
        simp only [isEdge, if_neg hx0, bne_iff_ne, ne_eq] at hxE'
        have h1 : z.getD x false = true := hall x (by omega) (by omega)
        have h2 : z.getD (x - 1) false = true := hall (x - 1) (by omega) (by omega)
        rw [h1, h2] at hxE'
        exact hxE' rfl
      · rw [List.mem_singleton.mp hxL] at hxc
        omega
    refine (zeroRunPairs_mem z minP a b).mpr
      ⟨b + 1, (zip_tail_mem_iff (boundaries_sorted z)).mpr ⟨haIdx, hcB, by omega, hgap⟩,
        hza, by omega, by omega⟩

lemma summarizeDuid_some {df : List SReading} {u : String} {S : DuidSummary}
    (hS : summarizeDuid df u = some S) : S = mkSummary df u := by
  cases h : subSorted df u with
  | nil => simp [summarizeDuid, h] at hS
  | cons hd tl =>
    simp only [summarizeDuid, h, Option.some.injEq] at hS
    exact hS.symm

/-- C6, as stated by the spec: the outage runs are the maximal contiguous runs
where the power value equals exactly zero.  This is false on a missing value:
`_find_zero_runs` applies `fillna(0)` first, so a run of NaN readings is
reported as an outage although no value equals zero.  On three NaN readings
the code reports one 3-point run. -/
theorem C6_counterexample :
    findZeroRuns ([none, none, none] : List (Option ℚ)) 3 = [(0, 2)] ∧
    (([none, none, none] : List (Option ℚ)).all (fun x => !(x == some 0)) = true) ∧
    (summarizeDuid [⟨0, "A", none⟩, ⟨5, "A", none⟩, ⟨10, "A", none⟩] "A").map (·.outages)
      = some [(0, 10, 3)] := by
  refine ⟨by decide, by decide, ?_⟩
  have hsub : subSorted [⟨0, "A", none⟩, ⟨5, "A", none⟩, ⟨10, "A", none⟩] "A"
      = [⟨0, "A", none⟩, ⟨5, "A", none⟩, ⟨10, "A", none⟩] := by decide
  have hsome : summarizeDuid [⟨0, "A", none⟩, ⟨5, "A", none⟩, ⟨10, "A", none⟩] "A"
      = some (mkSummary [⟨0, "A", none⟩, ⟨5, "A", none⟩, ⟨10, "A", none⟩] "A") := by
    simp [summarizeDuid, hsub]
  rw [hsome, Option.map_some']
  decide

/-- C6 amended: the outages field consists exactly of the maximal contiguous
runs where the value is zero after missing values are filled with zero (zero
or missing), of length at least 3 points, emitted in order as
(start_time, end_time, point_count) triples; the scenario [0,0,0,0,100] at
5-minute spacing yields the single run of 4 points and zero_frac = 4/5. -/
theorem C6_zero_runs :
    (∀ (s : List (Option ℚ)) (j : ℕ), j < s.length →
      ((zvec s).getD j false = true ↔ s.getD j none = none ∨ s.getD j none = some 0)) ∧
    (∀ (s : List (Option ℚ)) (a b : ℕ),
      (a, b) ∈ findZeroRuns s 3 ↔ isMaxZeroRun (zvec s) a b ∧ 3 ≤ b + 1 - a) ∧
    (∀ (df : List SReading) (u : String) (S : DuidSummary), summarizeDuid df u = some S →
      S.outages = (findZeroRuns ((subSorted df u).map (·.power_MW)) 3).map
        (fun ab => (((subSorted df u).map (·.ts)).getD ab.1 0,
          ((subSorted df u).map (·.ts)).getD ab.2 0, ab.2 - ab.1 + 1))) ∧
    findZeroRuns ([some 0, some 0, some 0, some 0, some 100] : List (Option ℚ)) 3
      = [(0, 3)] ∧
    (summarizeDuid [⟨0, "A", some 0⟩, ⟨5, "A", some 0⟩, ⟨10, "A", some 0⟩,
        ⟨15, "A", some 0⟩, ⟨20, "A", some 100⟩] "A").map
      (fun S => (S.outages, S.zero_frac)) = some ([(0, 15, 4)], 4 / 5) := by
  refine ⟨?_, ?_, ?_, by decide, ?_⟩
  · intro s j hj
    have hj2 : j < (zvec s).length := by simpa [zvec] using hj
    rw [List.getD_eq_getElem _ _ hj2, List.getD_eq_getElem _ _ hj]
    simp only [zvec, List.getElem_map]
    rcases hmv : s[j] with _ | v
    · simp [zeroFill]
    · simp [zeroFill, beq_iff_eq]
  · intro s a b
    exact zeroRunPairs_mem_iff (zvec s) 3 a b
  · intro df u S hS
    rw [summarizeDuid_some hS]
    rfl
  · have hsub : subSorted [⟨0, "A", some 0⟩, ⟨5, "A", some 0⟩, ⟨10, "A", some 0⟩,
        ⟨15, "A", some 0⟩, ⟨20, "A", some 100⟩] "A"
        = [⟨0, "A", some 0⟩, ⟨5, "A", some 0⟩, ⟨10, "A", some 0⟩,
          ⟨15, "A", some 0⟩, ⟨20, "A", some 100⟩] := by decide
    have hsome : summarizeDuid [⟨0, "A", some 0⟩, ⟨5, "A", some 0⟩, ⟨10, "A", some 0⟩,
        ⟨15, "A", some 0⟩, ⟨20, "A", some 100⟩] "A"
        = some (mkSummary [⟨0, "A", some 0⟩, ⟨5, "A", some 0⟩, ⟨10, "A", some 0⟩,
          ⟨15, "A", some 0⟩, ⟨20, "A", some 100⟩] "A") := by
      simp [summarizeDuid, hsub]
    rw [hsome, Option.map_some']
    have houtages : (mkSummary [⟨0, "A", some 0⟩, ⟨5, "A", some 0⟩, ⟨10, "A", some 0⟩,
        ⟨15, "A", some 0⟩, ⟨20, "A", some 100⟩] "A").outages = [(0, 15, 4)] := by decide
    have h1 : ((((subSorted [⟨0, "A", some 0⟩, ⟨5, "A", some 0⟩, ⟨10, "A", some 0⟩,
        ⟨15, "A", some 0⟩, ⟨20, "A", some 100⟩] "A").map (·.power_MW)).filter
          (fun x => x == some 0)).length) = 4 := by decide
    have h2 : (((subSorted [⟨0, "A", some 0⟩, ⟨5, "A", some 0⟩, ⟨10, "A", some 0⟩,
        ⟨15, "A", some 0⟩, ⟨20, "A", some 100⟩] "A").map (·.power_MW)).length) = 5 := by
      decide
    have hzf : (mkSummary [⟨0, "A", some 0⟩, ⟨5, "A", some 0⟩, ⟨10, "A", some 0⟩,
        ⟨15, "A", some 0⟩, ⟨20, "A", some 100⟩] "A").zero_frac = (4 : ℚ) / 5 := by
      calc (mkSummary [⟨0, "A", some 0⟩, ⟨5, "A", some 0⟩, ⟨10, "A", some 0⟩,
            ⟨15, "A", some 0⟩, ⟨20, "A", some 100⟩] "A").zero_frac
          = ((((subSorted [⟨0, "A", some 0⟩, ⟨5, "A", some 0⟩, ⟨10, "A", some 0⟩,
              ⟨15, "A", some 0⟩, ⟨20, "A", some 100⟩] "A").map (·.power_MW)).filter
                (fun x => x == some 0)).length : ℚ)
              / (((subSorted [⟨0, "A", some 0⟩, ⟨5, "A", some 0⟩, ⟨10, "A", some 0⟩,
                ⟨15, "A", some 0⟩, ⟨20, "A", some 100⟩] "A").map (·.power_MW)).length : ℚ)
            := rfl
        _ = (4 : ℚ) / 5 := by rw [h1, h2]; norm_num
    rw [houtages, hzf]

/-- Witness for C6: the outage-field characterization applied to a concrete
one-reading unit. -/
theorem C6_zero_runs_witness :
    summarizeDuid [⟨0, "A", some 0⟩] "A" = some (mkSummary [⟨0, "A", some 0⟩] "A") ∧
    (mkSummary [⟨0, "A", some 0⟩] "A").outages
      = (findZeroRuns ((subSorted [⟨0, "A", some 0⟩] "A").map (·.power_MW)) 3).map
        (fun ab => (((subSorted [⟨0, "A", some 0⟩] "A").map (·.ts)).getD ab.1 0,
          ((subSorted [⟨0, "A", some 0⟩] "A").map (·.ts)).getD ab.2 0,
          ab.2 - ab.1 + 1)) := by
  have hsome : summarizeDuid [⟨0, "A", some 0⟩] "A"
      = some (mkSummary [⟨0, "A", some 0⟩] "A") := by
    simp [summarizeDuid, show subSorted [⟨0, "A", some 0⟩] "A" = [⟨0, "A", some 0⟩]
      from by decide]
  exact ⟨hsome, C6_zero_runs.2.2.1 _ "A" _ hsome⟩

/-! ## Claim C7: summary invariants -/

lemma le_foldl_max : ∀ (xs : List ℚ) (x : ℚ), x ≤ xs.foldl max x := by
  intro xs
  induction xs with
  | nil => intro x; exact le_refl x
  | cons y ys ih =>
    intro x
    exact le_trans (le_max_left x y) (ih (max x y))

lemma mem_le_foldl_max : ∀ (xs : List ℚ) (x : ℚ), ∀ y ∈ xs, y ≤ xs.foldl max x := by
  intro xs
  induction xs with
  | nil => intro x y hy; exact absurd hy (List.not_mem_nil y)
  | cons z ys ih =>
    intro x y hy
    rcases List.mem_cons.mp hy with rfl | hy'
    · exact le_trans (le_max_right x y) (le_foldl_max ys (max x y))
    · exact ih (max x z) y hy'

lemma oramps_nonneg : ∀ (p : List (Option ℚ)) (x : Option ℚ), x ∈ oramps p →
    ∀ q : ℚ, x = some q → 0 ≤ q := by
  intro p
  induction p with
  | nil => intro x hx; exact absurd hx (List.not_mem_nil x)
  | cons a rest ih =>
    intro x hx q hq
    cases rest with
    | nil => exact absurd hx (List.not_mem_nil x)
    | cons b t =>
      rcases List.mem_cons.mp hx with rfl | hx'
      · cases a with
        | none => exact absurd hq (by simp [oramps])
        | some va =>
          cases b with
          | none => exact absurd hq (by simp [oramps])
          | some vb =>
            have : some |vb - va| = some q := by simpa [oramps] using hq
            rw [← Option.some.injEq _ q |>.mp this]
            exact abs_nonneg _
      · exact ih x hx' q hq

lemma nanmaxQ_spec {l : List (Option ℚ)} {v : ℚ} (h : nanmaxQ l = some v) :
    (∃ x ∈ l.filterMap id, x ≤ v) ∧ ∀ y ∈ l.filterMap id, y ≤ v := by
  rw [nanmaxQ] at h
  cases hf : l.filterMap id with
  | nil => rw [hf] at h; exact Option.noConfusion h
  | cons x xs =>
    rw [hf] at h
    have hv : v = xs.foldl max x := (Option.some.injEq _ _).mp h |>.symm
    subst hv
    refine ⟨⟨x, by simp, le_foldl_max xs x⟩, ?_⟩
    intro y hy
    rcases List.mem_cons.mp hy with rfl | hy'
    · exact le_foldl_max xs y
    · exact mem_le_foldl_max xs x y hy'

lemma qfloor_eq_floor (q : ℚ) : qfloor q = ⌊q⌋ := by
  rw [Rat.floor_def, qfloor]
  exact Int.fdiv_eq_ediv _ (by positivity)

lemma percentile95_convex {l : List ℚ} (hl : l ≠ []) :
    ∃ x y frac : ℚ, x ∈ l ∧ y ∈ l ∧ 0 ≤ frac ∧ frac ≤ 1 ∧
      percentile95 l = x + frac * (y - x) := by
  have hperm : List.Perm (sortedAsc l) l := List.perm_insertionSort _ l
  have hne : sortedAsc l ≠ [] := by
    intro h
    apply hl
    have hlen := hperm.length_eq
    rw [h] at hlen
    exact List.length_eq_zero.mp hlen.symm
  have hn1 : 1 ≤ (sortedAsc l).length := List.length_pos.mpr hne
  have hpos0 : 0 ≤ p95pos l := by
    rw [p95pos]
    have : (1 : ℚ) ≤ ((sortedAsc l).length : ℚ) := by exact_mod_cast hn1
    nlinarith
  have hfl : (0 : ℤ) ≤ ⌊p95pos l⌋ := Int.floor_nonneg.mpr hpos0
  have hlocast : ((p95lo l : ℕ) : ℚ) = ((⌊p95pos l⌋ : ℤ) : ℚ) := by
    rw [p95lo, qfloor_eq_floor]
    exact_mod_cast congrArg (fun z : ℤ => (z : ℚ)) (Int.toNat_of_nonneg hfl)
  have hfrac0 : 0 ≤ p95pos l - (p95lo l : ℚ) := by
    rw [hlocast]
    have := Int.floor_le (p95pos l)
    linarith
  have hfrac1 : p95pos l - (p95lo l : ℚ) ≤ 1 := by
    rw [hlocast]
    have := Int.lt_floor_add_one (p95pos l)
    push_cast at this ⊢
    linarith
  have hlo_lt : p95lo l < (sortedAsc l).length := by
    have hle : p95pos l ≤ ((sortedAsc l).length : ℚ) - 1 := by
      rw [p95pos]
      have : (1 : ℚ) ≤ ((sortedAsc l).length : ℚ) := by exact_mod_cast hn1
      nlinarith
    have h2 : (⌊p95pos l⌋ : ℚ) ≤ ((sortedAsc l).length : ℚ) - 1 :=
      le_trans (Int.floor_le _) hle
    have h3 : ((p95lo l : ℕ) : ℚ) ≤ ((sortedAsc l).length : ℚ) - 1 := by
      rw [hlocast]; exact h2
    have h4 : ((p95lo l : ℕ) : ℚ) < ((sortedAsc l).length : ℚ) := by linarith
    exact_mod_cast h4
  set x := (sortedAsc l).getD (p95lo l) 0 with hxdef
  have hx : x ∈ l := by
    apply hperm.mem_iff.mp
    rw [hxdef, List.getD_eq_getElem _ _ hlo_lt]
    exact List.getElem_mem _
  set y := (sortedAsc l).getD (p95lo l + 1) x with hydef
  have hy : y ∈ l := by
    by_cases hlo1 : p95lo l + 1 < (sortedAsc l).length
    · apply hperm.mem_iff.mp
      rw [hydef, List.getD_eq_getElem _ _ hlo1]
      exact List.getElem_mem _
    · have : y = x := by
        rw [hydef]
        exact List.getD_eq_default _ _ (by omega)
      rw [this]; exact hx
  exact ⟨x, y, p95pos l - (p95lo l : ℚ), hx, hy, hfrac0, hfrac1, rfl⟩

lemma percentile95_ge {l : List ℚ} (hl : l ≠ []) {m : ℚ} (hm : ∀ y ∈ l, m ≤ y) :
    m ≤ percentile95 l := by
  obtain ⟨x, y, frac, hx, hy, hf0, hf1, hval⟩ := percentile95_convex hl
  rw [hval]
  nlinarith [mul_le_mul_of_nonneg_left (show m - x ≤ y - x by linarith [hm y hy]) hf0,
    mul_nonneg (show (0 : ℚ) ≤ 1 - frac by linarith)
      (show (0 : ℚ) ≤ x - m by linarith [hm x hx])]

lemma percentile95_le {l : List ℚ} (hl : l ≠ []) {M : ℚ} (hM : ∀ y ∈ l, y ≤ M) :
    percentile95 l ≤ M := by
  obtain ⟨x, y, frac, hx, hy, hf0, hf1, hval⟩ := percentile95_convex hl
  rw [hval]
  nlinarith [mul_le_mul_of_nonneg_left (show y - x ≤ M - x by linarith [hM y hy]) hf0,
    mul_nonneg (show (0 : ℚ) ≤ 1 - frac by linarith)
      (show (0 : ℚ) ≤ M - x by linarith [hM x hx])]

lemma zip_tail_pairwise : ∀ {l : List ℕ}, l.Pairwise (· < ·) →
    (l.zip l.tail).Pairwise (fun p q : ℕ × ℕ => p.2 - 1 < q.1) := by
  intro l
  induction l with
  | nil => intro _; constructor
  | cons x rest ih =>
    intro hl
    obtain ⟨hx, hrest⟩ := List.pairwise_cons.mp hl
    cases rest with
    | nil => constructor
    | cons y t =>
      have hzip : (x :: y :: t).zip (x :: y :: t).tail
          = (x, y) :: ((y :: t).zip t) := rfl
      rw [hzip]
      refine List.Pairwise.cons ?_ (ih hrest)
      rintro ⟨q1, q2⟩ hq
      have hq1 : q1 ∈ y :: t := (List.of_mem_zip hq).1
      have hxy : x < y := hx y (List.mem_cons_self _ _)
      have hyq : y ≤ q1 := by
        rcases List.mem_cons.mp hq1 with rfl | hq1'
        · exact le_refl q1
        · exact le_of_lt ((List.pairwise_cons.mp hrest).1 q1 hq1')
      show y - 1 < q1
      omega

lemma zeroRunPairs_pairwise (z : List Bool) (minP : ℕ) :
    (zeroRunPairs z minP).Pairwise (fun r s : ℕ × ℕ => r.2 < s.1) := by
  rw [zeroRunPairs]
  refine List.Pairwise.map _ ?_
    ((zip_tail_pairwise (boundaries_sorted z)).sublist (List.filter_sublist _))
  intro a b hab
  exact hab

lemma zeroRunPairs_bounds (z : List Bool) (minP : ℕ) :
    ∀ ab ∈ zeroRunPairs z minP, ab.1 ≤ ab.2 ∧ ab.2 < z.length := by
  rintro ⟨a, b⟩ hab
  have := ((zeroRunPairs_mem_iff z minP a b).mp hab).1
  exact ⟨this.1, this.2.1⟩

lemma subSorted_ts_sorted (df : List SReading) (u : String) :
    (subSorted df u).Pairwise (fun a b : SReading => a.ts ≤ b.ts) :=
  List.sorted_insertionSort _ _

lemma tsList_getD_mono (df : List SReading) (u : String) {i j : ℕ} (hij : i ≤ j)
    (hj : j < (subSorted df u).length) :
    ((subSorted df u).map (·.ts)).getD i 0 ≤ ((subSorted df u).map (·.ts)).getD j 0 := by
  rcases Nat.eq_or_lt_of_le hij with rfl | hlt
  · exact le_refl _
  · have hps : ((subSorted df u).map (·.ts)).Pairwise (· ≤ ·) := by
      rw [List.pairwise_map]
      exact subSorted_ts_sorted df u
    have hj2 : j < ((subSorted df u).map (·.ts)).length := by simpa using hj
    have hi2 : i < ((subSorted df u).map (·.ts)).length := by omega
    rw [List.getD_eq_getElem _ _ hi2, List.getD_eq_getElem _ _ hj2]
    have := List.pairwise_iff_get.mp hps ⟨i, hi2⟩ ⟨j, hj2⟩ hlt
    simpa [List.get_eq_getElem] using this

lemma summarizeDuid_ne_nil {df : List SReading} {u : String} {S : DuidSummary}
    (hS : summarizeDuid df u = some S) : subSorted df u ≠ [] := by
  intro h
  simp [summarizeDuid, h] at hS

lemma mkSummary_outages_pairwise (df : List SReading) (u : String) :
    (mkSummary df u).outages.Pairwise
      (fun o1 o2 : ℕ × ℕ × ℕ => o1.2.1 ≤ o2.1 ∧ o1.1 ≤ o2.1) := by
  have hlen : (zvec ((subSorted df u).map (·.power_MW))).length = (subSorted df u).length := by
    simp [zvec]
  have hPW : (findZeroRuns ((subSorted df u).map (·.power_MW)) 3).Pairwise
      (fun r s : ℕ × ℕ =>
        ((subSorted df u).map (·.ts)).getD r.2 0 ≤ ((subSorted df u).map (·.ts)).getD s.1 0
        ∧ ((subSorted df u).map (·.ts)).getD r.1 0
            ≤ ((subSorted df u).map (·.ts)).getD s.1 0) := by
    refine List.Pairwise.imp_of_mem ?_ (zeroRunPairs_pairwise _ 3)
    intro r s hr hs hrs
    obtain ⟨hr1, hr2⟩ := zeroRunPairs_bounds _ 3 r hr
    obtain ⟨hs1, hs2⟩ := zeroRunPairs_bounds _ 3 s hs
    have hs1' : s.1 < (subSorted df u).length := by
      rw [hlen] at hs2
      omega
    exact ⟨tsList_getD_mono df u (by omega) hs1', tsList_getD_mono df u (by omega) hs1'⟩
  exact List.Pairwise.map _ (fun r s h => h) hPW

/-- C7, as stated by the spec: this fails for a unit with a single reading (an
accepted input): all first differences are then NaN, `np.nanmax` of the
all-NaN ramp series is NaN (`ramp_max = none` in the model), and under float
semantics neither `ramp_95p <= ramp_max` nor `ramp_max >= 0` holds. -/
theorem C7_counterexample :
    (summarizeDuid [⟨0, "A", some 5⟩] "A").map (·.ramp_max) = some none ∧
    (summarizeDuid [⟨0, "A", some 5⟩] "A").map
        (fun S => fleOpt (some S.ramp_95p) S.ramp_max || fleOpt (some 0) S.ramp_max)
      = some false := by
  have hsub : subSorted [⟨0, "A", some 5⟩] "A" = [⟨0, "A", some 5⟩] := by decide
  have hsome : summarizeDuid [⟨0, "A", some 5⟩] "A"
      = some (mkSummary [⟨0, "A", some 5⟩] "A") := by
    simp [summarizeDuid, hsub]
  rw [hsome, Option.map_some', Option.map_some']
  constructor
  · rfl
  · rfl

/-- C7 amended: for every accepted per-unit input, `zero_frac` and `neg_frac`
lie in `[0,1]`, `ramp_95p` is nonnegative, the outages are pairwise
non-overlapping and sorted by start time, and whenever `ramp_max` is defined
(at least one pair of consecutive readings has present values) it satisfies
`0 <= ramp_max` and `ramp_95p <= ramp_max`; with no defined first difference
`ramp_max` is NaN and those comparisons fail (see the counterexample). -/
theorem C7_invariants (df : List SReading) (u : String) (S : DuidSummary)
    (hS : summarizeDuid df u = some S) :
    (0 ≤ S.zero_frac ∧ S.zero_frac ≤ 1 ∧ 0 ≤ S.neg_frac ∧ S.neg_frac ≤ 1) ∧
    0 ≤ S.ramp_95p ∧
    (∀ v, S.ramp_max = some v → 0 ≤ v ∧ S.ramp_95p ≤ v) ∧
    S.outages.Pairwise (fun o1 o2 : ℕ × ℕ × ℕ => o1.2.1 ≤ o2.1 ∧ o1.1 ≤ o2.1) := by
  have hne := summarizeDuid_ne_nil hS
  rw [summarizeDuid_some hS]
  have hn : 0 < (((subSorted df u).map (·.power_MW)).length : ℚ) := by
    have : 0 < (subSorted df u).length := List.length_pos.mpr hne
    have h2 : 0 < ((subSorted df u).map (·.power_MW)).length := by simpa using this
    exact_mod_cast h2
  have hfrac : ∀ (pred : Option ℚ → Bool),
      0 ≤ ((((subSorted df u).map (·.power_MW)).filter pred).length : ℚ)
          / (((subSorted df u).map (·.power_MW)).length : ℚ) ∧
      ((((subSorted df u).map (·.power_MW)).filter pred).length : ℚ)
          / (((subSorted df u).map (·.power_MW)).length : ℚ) ≤ 1 := by
    intro pred
    constructor
    · exact div_nonneg (Nat.cast_nonneg _) (Nat.cast_nonneg _)
    · rw [div_le_one hn]
      exact_mod_cast List.length_filter_le pred _
  have hvalid_nonneg : ∀ y ∈ (oramps ((subSorted df u).map (·.power_MW))).filterMap id,
      0 ≤ y := by
    intro y hy
    obtain ⟨o, ho, hoy⟩ := List.mem_filterMap.mp hy
    exact oramps_nonneg _ o ho y hoy
  refine ⟨⟨(hfrac _).1, (hfrac _).2, (hfrac _).1, (hfrac _).2⟩, ?_, ?_,
    mkSummary_outages_pairwise df u⟩
  · show 0 ≤ (if (oramps ((subSorted df u).map (·.power_MW))).filterMap id = [] then 0
      else percentile95 ((oramps ((subSorted df u).map (·.power_MW))).filterMap id))
    by_cases hv : (oramps ((subSorted df u).map (·.power_MW))).filterMap id = []
    · rw [if_pos hv]
    · rw [if_neg hv]
      exact percentile95_ge hv hvalid_nonneg
  · intro v hv
    have hv' : nanmaxQ (oramps ((subSorted df u).map (·.power_MW))) = some v := hv
    obtain ⟨⟨x, hx, hxv⟩, hall⟩ := nanmaxQ_spec hv'
    have h0v : 0 ≤ v := le_trans (hvalid_nonneg x hx) hxv
    have hvne : (oramps ((subSorted df u).map (·.power_MW))).filterMap id ≠ [] := by
      intro h
      rw [h] at hx
      exact List.not_mem_nil x hx
    refine ⟨h0v, ?_⟩
    show (if (oramps ((subSorted df u).map (·.power_MW))).filterMap id = [] then 0
      else percentile95 ((oramps ((subSorted df u).map (·.power_MW))).filterMap id)) ≤ v
    rw [if_neg hvne]
    exact percentile95_le hvne hall

/-- Witness for C7: the invariants applied to a concrete two-reading unit. -/
theorem C7_invariants_witness :
    summarizeDuid [⟨0, "A", some 0⟩, ⟨5, "A", some 100⟩] "A"
      = some (mkSummary [⟨0, "A", some 0⟩, ⟨5, "A", some 100⟩] "A") ∧
    ((0 ≤ (mkSummary [⟨0, "A", some 0⟩, ⟨5, "A", some 100⟩] "A").zero_frac ∧
      (mkSummary [⟨0, "A", some 0⟩, ⟨5, "A", some 100⟩] "A").zero_frac ≤ 1 ∧
      0 ≤ (mkSummary [⟨0, "A", some 0⟩, ⟨5, "A", some 100⟩] "A").neg_frac ∧
      (mkSummary [⟨0, "A", some 0⟩, ⟨5, "A", some 100⟩] "A").neg_frac ≤ 1) ∧
    0 ≤ (mkSummary [⟨0, "A", some 0⟩, ⟨5, "A", some 100⟩] "A").ramp_95p ∧
    (∀ v, (mkSummary [⟨0, "A", some 0⟩, ⟨5, "A", some 100⟩] "A").ramp_max = some v →
      0 ≤ v ∧ (mkSummary [⟨0, "A", some 0⟩, ⟨5, "A", some 100⟩] "A").ramp_95p ≤ v) ∧
    (mkSummary [⟨0, "A", some 0⟩, ⟨5, "A", some 100⟩] "A").outages.Pairwise
      (fun o1 o2 : ℕ × ℕ × ℕ => o1.2.1 ≤ o2.1 ∧ o1.1 ≤ o2.1)) := by
  have hsome : summarizeDuid [⟨0, "A", some 0⟩, ⟨5, "A", some 100⟩] "A"
      = some (mkSummary [⟨0, "A", some 0⟩, ⟨5, "A", some 100⟩] "A") := by
    simp [summarizeDuid, show subSorted [⟨0, "A", some 0⟩, ⟨5, "A", some 100⟩] "A"
      = [⟨0, "A", some 0⟩, ⟨5, "A", some 100⟩] from by decide]
  exact ⟨hsome, C7_invariants [⟨0, "A", some 0⟩, ⟨5, "A", some 100⟩] "A" _ hsome⟩

/-! ## Claim C8: zero rolling std never flags -/

lemma zscoreFlags_length (p : List (Option ℚ)) :
    (zscoreFlags p).length = (odiff p).length := by
  simp [zscoreFlags]

lemma zscoreFlags_getD (p : List (Option ℚ)) (i : ℕ) (hi : i < (odiff p).length) :
    (zscoreFlags p).getD i false
      = (match (odiff p).getD i none, rollMean (odiff p) i 12 (max 3 (12 / 2)),
          rollVar (odiff p) i 12 (max 3 (12 / 2)) with
        | some d, some m, some v =>
          decide (0 < v) && decide ((3 : ℚ) ^ 2 * v < (d - m) ^ 2)
        | _, _, _ => false) := by
  simp only [zscoreFlags]
  have hi2 : i < ((List.range (odiff p).length).map (fun i =>
      match (odiff p).getD i none, rollMean (odiff p) i 12 (max 3 (12 / 2)),
        rollVar (odiff p) i 12 (max 3 (12 / 2)) with
      | some d, some m, some v =>
        decide (0 < v) && decide ((3 : ℚ) ^ 2 * v < (d - m) ^ 2)
      | _, _, _ => false)).length := by
    simpa using hi
  rw [List.getD_eq_getElem _ _ hi2]
  simp

/-- C8: a slot whose rolling standard deviation is zero (zero rolling
variance in the squared encoding) is never flagged; a flagged slot always has
a defined positive rolling variance; and the anomalies count of a summary is
exactly the number of flagged slots.  The source achieves this by replacing a
zero rolling std with NaN before dividing, so the comparison with the
threshold is false rather than an infinite z-score. -/
theorem C8_zero_std_no_flag :
    (∀ (p : List (Option ℚ)) (i : ℕ),
      rollVar (odiff p) i 12 (max 3 (12 / 2)) = some 0 →
      (zscoreFlags p).getD i false = false) ∧
    (∀ (p : List (Option ℚ)) (i : ℕ), (zscoreFlags p).getD i false = true →
      ∃ v, rollVar (odiff p) i 12 (max 3 (12 / 2)) = some v ∧ 0 < v) ∧
    (∀ (df : List SReading) (u : String) (S : DuidSummary), summarizeDuid df u = some S →
      S.anomalies = (zscoreFlags ((subSorted df u).map (·.power_MW))).count true) := by
  refine ⟨?_, ?_, ?_⟩
  · intro p i h
    by_cases hi : i < (odiff p).length
    · rw [zscoreFlags_getD p i hi, h]
      rcases h1 : (odiff p).getD i none with _ | d
      · rfl
      · rcases h2 : rollMean (odiff p) i 12 (max 3 (12 / 2)) with _ | m
        · rfl
        · simp
    · apply List.getD_eq_default
      rw [zscoreFlags_length]
      omega
  · intro p i h
    by_cases hi : i < (odiff p).length
    · rw [zscoreFlags_getD p i hi] at h
      rcases h1 : (odiff p).getD i none with _ | d <;> rw [h1] at h
      · exact absurd h (by simp)
      rcases h2 : rollMean (odiff p) i 12 (max 3 (12 / 2)) with _ | m <;> rw [h2] at h
      · exact absurd h (by simp)
      rcases h3 : rollVar (odiff p) i 12 (max 3 (12 / 2)) with _ | v <;> rw [h3] at h
      · exact absurd h (by simp)
      · simp only [Bool.and_eq_true, decide_eq_true_eq] at h
        exact ⟨v, rfl, h.1⟩
    · rw [List.getD_eq_default _ _ (by rw [zscoreFlags_length]; omega)] at h
      exact Bool.noConfusion h
  · intro df u S hS
    rw [summarizeDuid_some hS]
    rfl

/-- Witness for C8: on eight constant readings the first seven differences are
all 0, the trailing window at slot 7 has 7 valid samples (at least the minimum
6), its variance is 0, and the slot is not flagged; and the anomalies field of
a concrete summary equals its flag count. -/
theorem C8_zero_std_no_flag_witness :
    (rollVar (odiff (List.replicate 8 (some (1 : ℚ)))) 7 12 (max 3 (12 / 2)) = some 0 ∧
      (zscoreFlags (List.replicate 8 (some (1 : ℚ)))).getD 7 false = false) ∧
    (summarizeDuid [⟨0, "A", some 1⟩] "A" = some (mkSummary [⟨0, "A", some 1⟩] "A") ∧
      (mkSummary [⟨0, "A", some 1⟩] "A").anomalies
        = (zscoreFlags ((subSorted [⟨0, "A", some 1⟩] "A").map (·.power_MW))).count true) := by
  have hvar : rollVar (odiff (List.replicate 8 (some (1 : ℚ)))) 7 12 (max 3 (12 / 2))
      = some 0 := by
    have hds : odiff (List.replicate 8 (some (1 : ℚ)))
        = none :: List.replicate 7 (some 0) := by
      norm_num [odiff, osub, List.replicate]
    rw [hds]
    norm_num [rollVar, winAt, List.replicate, popVar, meanOf, List.filterMap_cons]
  have hsome : summarizeDuid [⟨0, "A", some 1⟩] "A"
      = some (mkSummary [⟨0, "A", some 1⟩] "A") := by
    simp [summarizeDuid, show subSorted [⟨0, "A", some 1⟩] "A" = [⟨0, "A", some 1⟩]
      from by decide]
  exact ⟨⟨hvar, C8_zero_std_no_flag.1 _ 7 hvar⟩,
    ⟨hsome, C8_zero_std_no_flag.2.2 _ "A" _ hsome⟩⟩

/-! ## Claim C9: record extractor -/

/-- C9: if no row carries the sentinel header label the result is empty (not an
error); otherwise, among the data-tagged rows after the header, a row with a
coercible timestamp always contributes exactly one output record carrying the
(timestamp, unit, power) triple with the unit identifier uppercased and a
failed value coercion kept as a missing power; and every output record arises
from such a row.  Rows whose timestamp fails coercion contribute nothing. -/
theorem C9_extractor (parseTs : String → Option ℕ) (parseNum : String → Option ℚ)
    (grid : List (List String)) :
    (headerIdx grid = none → parseBanner parseTs parseNum grid = []) ∧
    (∀ h, headerIdx grid = some h →
      (∀ row ∈ grid.drop (h + 1), row.get? 0 = some "D" →
        ∀ t, (row.get? 4).bind parseTs = some t →
          (t, strUpper ((row.get? 5).getD "nan"), (row.get? 6).bind parseNum)
            ∈ parseBanner parseTs parseNum grid) ∧
      (∀ rec ∈ parseBanner parseTs parseNum grid,
        ∃ row ∈ grid.drop (h + 1), row.get? 0 = some "D" ∧
          (row.get? 4).bind parseTs = some rec.1 ∧
          rec.2.1 = strUpper ((row.get? 5).getD "nan") ∧
          rec.2.2 = (row.get? 6).bind parseNum)) := by
  constructor
  · intro hnone
    simp [parseBanner, hnone]
  · intro h hh
    constructor
    · intro row hrow htag t ht
      have hmem : row ∈ (grid.drop (h + 1)).filter (fun r => r.get? 0 == some "D") :=
        List.mem_filter.mpr ⟨hrow, by simp only [beq_iff_eq]; exact htag⟩
      have hne : (grid.drop (h + 1)).filter (fun r => r.get? 0 == some "D") ≠ [] :=
        List.ne_nil_of_mem hmem
      simp only [parseBanner, hh]
      rw [if_neg hne]
      apply List.mem_filterMap.mpr
      exact ⟨row, hmem, by rw [ht]⟩
    · intro rec hrec
      simp only [parseBanner, hh] at hrec
      by_cases hne : (grid.drop (h + 1)).filter (fun r => r.get? 0 == some "D") = []
      · rw [if_pos hne] at hrec
        exact absurd hrec (List.not_mem_nil rec)
      · rw [if_neg hne] at hrec
        obtain ⟨row, hrow, hf⟩ := List.mem_filterMap.mp hrec
        obtain ⟨hdrop, htag⟩ := List.mem_filter.mp hrow
        refine ⟨row, hdrop, by simpa using htag, ?_⟩
        cases hts : (row.get? 4).bind parseTs with
        | none => rw [hts] at hf; exact Option.noConfusion hf
        | some t =>
          rw [hts] at hf
          have := (Option.some.injEq _ _).mp hf
          rw [← this]
          exact ⟨rfl, rfl, rfl⟩

/-- Concrete timestamp coercion for the C9 witness. -/
def bannerParseTsEx : String → Option ℕ := fun s => if s = "10" then some 10 else none

/-- Concrete numeric coercion for the C9 witness. -/
def bannerParseNumEx : String → Option ℚ := fun s => if s = "5" then some 5 else none

/-- Concrete banner grid for the C9 witness: a preamble row, the sentinel
header at index 1, a good data row, a data row with a bad timestamp, a data
row with a bad value, and a non-data row. -/
def bannerGridEx : List (List String) :=
  [["junk"],
   ["C", "x", "y", "z", "SETTLEMENTDATE", "DUID", "SCADAVALUE", "LASTCHANGED"],
   ["D", "-", "-", "-", "10", "b1", "5", "-"],
   ["D", "-", "-", "-", "bad", "b1", "5", "-"],
   ["D", "-", "-", "-", "10", "b2", "bad", "-"],
   ["X", "-", "-", "-", "10", "b3", "5", "-"]]

/-- Witness for C9: on the concrete grid the header is found at index 1 and
the good data row contributes the record `(10, "B1", some 5)` (unit identifier
uppercased); the bad-value row appears with a missing power. -/
theorem C9_extractor_witness :
    headerIdx bannerGridEx = some 1 ∧
    (["D", "-", "-", "-", "10", "b1", "5", "-"] ∈ bannerGridEx.drop 2) ∧
    ((["D", "-", "-", "-", "10", "b1", "5", "-"] : List String).get? 0 = some "D") ∧
    (((["D", "-", "-", "-", "10", "b1", "5", "-"] : List String).get? 4).bind
      bannerParseTsEx = some 10) ∧
    ((10, strUpper (((["D", "-", "-", "-", "10", "b1", "5", "-"] : List String).get? 5).getD
        "nan"),
      ((["D", "-", "-", "-", "10", "b1", "5", "-"] : List String).get? 6).bind
        bannerParseNumEx)
      ∈ parseBanner bannerParseTsEx bannerParseNumEx bannerGridEx) ∧
    parseBanner bannerParseTsEx bannerParseNumEx bannerGridEx
      = [(10, "B1", some 5), (10, "B2", none)] := by
  have hh : headerIdx bannerGridEx = some 1 := by decide
  have hrow : (["D", "-", "-", "-", "10", "b1", "5", "-"] : List String)
      ∈ bannerGridEx.drop 2 := by decide
  have htag : (["D", "-", "-", "-", "10", "b1", "5", "-"] : List String).get? 0
      = some "D" := by decide
  have hts : ((["D", "-", "-", "-", "10", "b1", "5", "-"] : List String).get? 4).bind
      bannerParseTsEx = some 10 := by decide
  refine ⟨hh, hrow, htag, hts, ?_, by decide⟩
  exact ((C9_extractor bannerParseTsEx bannerParseNumEx bannerGridEx).2 1 hh).1
    _ hrow htag 10 hts

end AemoBess
